import Mathlib

/-!
Verification of the Gem Garden match-3 board engine
(`src/unnamed/part_000`, with the shared detector/gravity code also in
`src/game.js`) against its natural-language specification.

The JavaScript source mutates a global `grid : number[][]`, `score`,
`movesLeft`, `gemsCollected`, `totalGemsCollected` and draws entropy from
`Math.random()`.  The embedding below is a direct state-passing
translation: the grid is a row-major `List (List Int)` (gem kinds
`0..5`, the Empty sentinel `-1`), the run state is an explicit
structure, and `Math.floor(Math.random() * k)` is modelled as
`rng idx % k` for an explicit entropy stream `rng : Nat → Nat` with a
consumption index carried in the state.  Loops whose bound is not
structural (the cascade loop, the reshuffle recursion) take explicit
fuel and return `Option`, mirroring their potential non-termination.
-/

namespace GemGarden

/-- `CONFIG.ROWS` in the source. -/
def ROWS : Nat := 8

/-- `CONFIG.COLS` in the source. -/
def COLS : Nat := 8

/-- `CONFIG.NUM_GEM_TYPES` in the source. -/
def NUM_GEM_TYPES : Nat := 6

/-- `CONFIG.POINTS_PER_GEM` in the source. -/
def POINTS_PER_GEM : Nat := 10

/-- The board: row-major list of rows, a cell is a gem kind `0..5` or the
Empty sentinel `-1` (`removeMatches` writes `-1`). -/
abbrev Grid := List (List Int)

/-- `grid[row][col]` (out-of-range reads, which the source never performs,
default to `0`). -/
def getCell (g : Grid) (row col : Nat) : Int :=
  (g.getD row []).getD col 0

/-- `grid[row][col] = v`. -/
def setCell (g : Grid) (row col : Nat) (v : Int) : Grid :=
  g.set row ((g.getD row []).set col v)

/-- A well-formed board: 8 rows of 8 cells, exactly as `createGrid` builds it. -/
def WF (g : Grid) : Prop :=
  g.length = ROWS ∧ ∀ row ∈ g, row.length = COLS

instance : DecidablePred WF := fun g =>
  decidable_of_iff (g.length = ROWS ∧ ∀ row ∈ g, row.length = COLS) Iff.rfl

/-- `swap(row1, col1, row2, col2)` from the source: read both cells, then
write them back exchanged (`temp` first, sequential assignments). -/
def swapCells (g : Grid) (row1 col1 row2 col2 : Nat) : Grid :=
  let temp := getCell g row1 col1
  let v2 := getCell g row2 col2
  setCell (setCell g row1 col1 v2) row2 col2 temp

/-- `matches.add(pos)` on the JS `Set`: insertion-ordered, duplicates kept
once. -/
def insertPos (acc : List (Nat × Nat)) (p : Nat × Nat) : List (Nat × Nat) :=
  if p ∈ acc then acc else acc ++ [p]

/-- The `while (matchEnd + 1 < CONFIG.COLS && grid[row][matchEnd+1] === gemType)`
extension loop of the horizontal scan; the fuel (`COLS` at the top call)
bounds the strictly increasing index. -/
def extendH : Nat → Grid → Nat → Nat → Int → Nat
  | 0, _, _, matchEnd, _ => matchEnd
  | fuel + 1, g, row, matchEnd, v =>
    if matchEnd + 1 < COLS ∧ getCell g row (matchEnd + 1) = v then
      extendH fuel g row (matchEnd + 1) v
    else matchEnd

/-- The vertical extension loop (`matchEnd + 1 < CONFIG.ROWS`). -/
def extendV : Nat → Grid → Nat → Nat → Int → Nat
  | 0, _, _, matchEnd, _ => matchEnd
  | fuel + 1, g, col, matchEnd, v =>
    if matchEnd + 1 < ROWS ∧ getCell g (matchEnd + 1) col = v then
      extendV fuel g col (matchEnd + 1) v
    else matchEnd

/-- `for (let c = col; c <= matchEnd; c++) matches.add(`${row},${c}`)`. -/
def addHRun (acc : List (Nat × Nat)) (row col matchEnd : Nat) :
    List (Nat × Nat) :=
  (List.range' col (matchEnd + 1 - col)).foldl
    (fun a c => insertPos a (row, c)) acc

/-- `for (let r = row; r <= matchEnd; r++) matches.add(`${r},${col}`)`. -/
def addVRun (acc : List (Nat × Nat)) (col row matchEnd : Nat) :
    List (Nat × Nat) :=
  (List.range' row (matchEnd + 1 - row)).foldl
    (fun a r => insertPos a (r, col)) acc

/-- The horizontal scan of one row: `for (col = 0; col < COLS - 2; col++)`
with the `col = matchEnd` skip after a detected run.  `col` strictly
increases each iteration, so fuel `COLS` suffices. -/
def hScanRow : Nat → Grid → Nat → Nat → List (Nat × Nat) → List (Nat × Nat)
  | 0, _, _, _, acc => acc
  | fuel + 1, g, row, col, acc =>
    if col < COLS - 2 then
      let v := getCell g row col
      if getCell g row (col + 1) = v ∧ getCell g row (col + 2) = v then
        let matchEnd := extendH COLS g row (col + 2) v
        hScanRow fuel g row (matchEnd + 1) (addHRun acc row col matchEnd)
      else
        hScanRow fuel g row (col + 1) acc
    else acc

/-- The vertical scan of one column, symmetric to `hScanRow`. -/
def vScanCol : Nat → Grid → Nat → Nat → List (Nat × Nat) → List (Nat × Nat)
  | 0, _, _, _, acc => acc
  | fuel + 1, g, col, row, acc =>
    if row < ROWS - 2 then
      let v := getCell g row col
      if getCell g (row + 1) col = v ∧ getCell g (row + 2) col = v then
        let matchEnd := extendV ROWS g col (row + 2) v
        vScanCol fuel g col (matchEnd + 1) (addVRun acc col row matchEnd)
      else
        vScanCol fuel g col (row + 1) acc
    else acc

/-- `findAllMatches()`: the horizontal pass over all rows, then the
vertical pass over all columns, sharing one deduplicating set; the result
is its insertion-ordered contents. -/
def findAllMatches (g : Grid) : List (Nat × Nat) :=
  let afterH := (List.range ROWS).foldl (fun acc row => hScanRow COLS g row 0 acc) []
  (List.range COLS).foldl (fun acc col => vScanCol ROWS g col 0 acc) afterH

/-- The run state the level-system source keeps in module globals:
`grid`, `score`, `movesLeft`, `gemsCollected` (a JS object keyed by the
cell value read at collection time, hence `Int → Nat`),
`totalGemsCollected`, plus the entropy stream standing for `Math.random`
and the index of the next draw. -/
@[ext]
structure GState where
  grid : Grid
  score : Nat
  movesLeft : Int
  gemsCollected : Int → Nat
  totalGemsCollected : Nat
  rng : Nat → Nat
  rngIdx : Nat

/-- `removeMatches(matches)`: mark every matched cell Empty (`-1`). -/
def removeMatches (g : Grid) (ms : List (Nat × Nat)) : Grid :=
  ms.foldl (fun acc p => setCell acc p.1 p.2 (-1)) g

/-- `grid[row][col]` column extraction, top to bottom. -/
def colList (g : Grid) (col : Nat) : List Int :=
  (List.range ROWS).map fun row => getCell g row col

/-- Write a column back cell by cell. -/
def setCol (g : Grid) (col : Nat) (l : List Int) : Grid :=
  (List.range ROWS).foldl (fun acc row => setCell acc row col (l.getD row 0)) g

/-- The inner loop of `applyGravity` on one column:
`for (row = ROWS-1; row >= 0; row--)` with the `emptyRow` write cursor.
The loop counter is the fuel (`r + 1` processes row `r` next); to stay in
`Nat` the cursor is carried as `emptyRow + 1` (`e`), so the source's
`row !== emptyRow` test reads `r + 1 ≠ e` and the write lands at `e - 1`. -/
def gravityAux : Nat → List Int → Nat → List Int × Nat
  | 0, col, e => (col, e)
  | r + 1, col, e =>
    if col.getD r 0 ≠ -1 then
      gravityAux r
        (if r + 1 = e then col else (col.set (e - 1) (col.getD r 0)).set r (-1))
        (e - 1)
    else gravityAux r col e

/-- One column of `applyGravity`: start at the bottom row with
`emptyRow = ROWS - 1`. -/
def applyGravityCol (col : List Int) : List Int :=
  (gravityAux ROWS col ROWS).1

/-- `applyGravity()`: the column loop; each column is compacted
independently (the source's inner loop reads and writes only
`grid[*][col]`). -/
def applyGravity (g : Grid) : Grid :=
  (List.range COLS).foldl (fun acc col => setCol acc col (applyGravityCol (colList acc col))) g

/-- The cell order of `fillEmptySpaces`' double loop
(`for col { for row }`), column-major. -/
def colMajorCells : List (Nat × Nat) :=
  (List.range COLS).flatMap fun col => (List.range ROWS).map fun row => (row, col)

/-- `fillEmptySpaces()`: every Empty cell receives
`Math.floor(Math.random() * NUM_GEM_TYPES)`, drawn in loop order; returns
the filled grid and the advanced entropy index. -/
def fillEmptySpaces (g : Grid) (rng : Nat → Nat) (idx : Nat) : Grid × Nat :=
  colMajorCells.foldl
    (fun s p =>
      if getCell s.1 p.1 p.2 = -1 then
        (setCell s.1 p.1 p.2 (Int.ofNat (rng s.2 % NUM_GEM_TYPES)), s.2 + 1)
      else s)
    (g, idx)

/-- One step of the gem-collection loop:
`gemsCollected[gemType]++` (keyed by the value read from the grid) and
`totalGemsCollected++`. -/
def collectOne (s : GState) (p : Nat × Nat) : GState :=
  let gemType := getCell s.grid p.1 p.2
  { s with
    gemsCollected := fun k => if k = gemType then s.gemsCollected k + 1 else s.gemsCollected k
    totalGemsCollected := s.totalGemsCollected + 1 }

/-- The gem-collection loop at the top of each cascade iteration. -/
def collectGems (st : GState) (ms : List (Nat × Nat)) : GState :=
  ms.foldl collectOne st

/-- One iteration of the `processMatches` loop body (after
`cascadeLevel++`): collect the matched gems, add the cascade-scaled
points, mark the cells Empty, apply gravity, refill. -/
def cascadeStep (mlist : List (Nat × Nat)) (cascadeLevel : Nat) (st : GState) : GState :=
  let st1 := collectGems st mlist
  let points := mlist.length * POINTS_PER_GEM * (cascadeLevel + 1)
  let st2 := { st1 with score := st1.score + points }
  let g3 := removeMatches st2.grid mlist
  let g4 := applyGravity g3
  let fill := fillEmptySpaces g4 st2.rng st2.rngIdx
  { st2 with grid := fill.1, rngIdx := fill.2 }

/-- `processMatches(matches)`: the cascade loop.  `cascadeLevel` starts at
0 and is incremented at the top of each iteration, so iteration `n` scores
`matches.length * POINTS_PER_GEM * n` with `n` starting at 1.  The loop
has no structural bound (refills may re-match forever against an
adversarial stream), so it takes fuel and returns `none` on exhaustion. -/
def processMatches : Nat → List (Nat × Nat) → Nat → GState → Option GState
  | 0, _, _, _ => none
  | _ + 1, [], _, st => some st
  | fuel + 1, m :: ms, cascadeLevel, st =>
    let st3 := cascadeStep (m :: ms) cascadeLevel st
    processMatches fuel (findAllMatches st3.grid) (cascadeLevel + 1) st3

/-- Row-major cell order of the `hasValidMoves` / `findValidMove` double
loop: `for row { for col }`. -/
def rowMajorCells : List (Nat × Nat) :=
  (List.range ROWS).flatMap fun row => (List.range COLS).map fun col => (row, col)

/-- `hasValidMoves()`: for each cell try the right-neighbor swap then the
bottom-neighbor swap, running the detector on the tentatively swapped
grid and swapping back; return on the first hit.  The mutated-and-restored
global grid is threaded explicitly and returned. -/
def hasValidMovesAux : List (Nat × Nat) → Grid → Bool × Grid
  | [], g => (false, g)
  | (row, col) :: rest, g =>
    let s1 :=
      if col < COLS - 1 then
        let g1 := swapCells g row col row (col + 1)
        let hasMatch := !(findAllMatches g1).isEmpty
        (hasMatch, swapCells g1 row col row (col + 1))
      else (false, g)
    if s1.1 then (true, s1.2)
    else
      let s2 :=
        if row < ROWS - 1 then
          let g1 := swapCells s1.2 row col (row + 1) col
          let hasMatch := !(findAllMatches g1).isEmpty
          (hasMatch, swapCells g1 row col (row + 1) col)
        else (false, s1.2)
      if s2.1 then (true, s2.2)
      else hasValidMovesAux rest s2.2

/-- `hasValidMoves()` over the whole board. -/
def hasValidMoves (g : Grid) : Bool × Grid :=
  hasValidMovesAux rowMajorCells g

/-- `findValidMove()`: the same scan, returning the first
`{row1, col1, row2, col2}` found instead of a boolean. -/
def findValidMoveAux : List (Nat × Nat) → Grid → Option (Nat × Nat × Nat × Nat) × Grid
  | [], g => (none, g)
  | (row, col) :: rest, g =>
    let s1 :=
      if col < COLS - 1 then
        let g1 := swapCells g row col row (col + 1)
        let hasMatch := !(findAllMatches g1).isEmpty
        (hasMatch, swapCells g1 row col row (col + 1))
      else (false, g)
    if s1.1 then (some (row, col, row, col + 1), s1.2)
    else
      let s2 :=
        if row < ROWS - 1 then
          let g1 := swapCells s1.2 row col (row + 1) col
          let hasMatch := !(findAllMatches g1).isEmpty
          (hasMatch, swapCells g1 row col (row + 1) col)
        else (false, s1.2)
      if s2.1 then (some (row, col, row + 1, col), s2.2)
      else findValidMoveAux rest s2.2

/-- `findValidMove()` over the whole board. -/
def findValidMove (g : Grid) : Option (Nat × Nat × Nat × Nat) × Grid :=
  findValidMoveAux rowMajorCells g

/-- One Fisher-Yates pass of `shuffleBoard()`: flatten the grid row-major,
swap `gems[i]` with `gems[j]`, `j = Math.floor(Math.random() * (i + 1))`,
for `i = 63 .. 1`, and write the list back row-major. -/
def fisherYates (g : Grid) (rng : Nat → Nat) (idx : Nat) : Grid × Nat :=
  let gems := g.flatten
  let shuffled :=
    ((List.range (ROWS * COLS - 1)).reverse.map (· + 1)).foldl
      (fun (s : List Int × Nat) i =>
        let j := rng s.2 % (i + 1)
        let a := s.1.getD i 0
        let b := s.1.getD j 0
        ((s.1.set i b).set j a, s.2 + 1))
      (gems, idx)
  ((List.range ROWS).map fun row =>
      (List.range COLS).map fun col => shuffled.1.getD (row * COLS + col) 0,
    shuffled.2)

/-- `shuffleBoard()`: permute, and recurse while the permuted board still
has no valid move; the recursion is unbounded in the source, hence the
fuel. -/
def shuffleBoard : Nat → GState → Option GState
  | 0, _ => none
  | fuel + 1, st =>
    let fy := fisherYates st.grid st.rng st.rngIdx
    let st1 := { st with grid := fy.1, rngIdx := fy.2 }
    if (hasValidMoves st1.grid).1 then some st1
    else shuffleBoard fuel st1

/-- The deadlock check at the end of `trySwap`:
`if (!hasValidMoves()) shuffleBoard()`. -/
def endOfSwapShuffle (fuel : Nat) (st : GState) : Option GState :=
  if (hasValidMoves st.grid).1 then some st
  else shuffleBoard fuel st

/-- `trySwap(row1, col1, row2, col2)`: swap, detect; on a match consume
one move and run the cascade loop; otherwise swap back.  Either way,
finish with the deadlock check (reshuffle if no valid move remains).
The source's `checkLevelEnd()` call after the cascade only reads state to
drive modals (`checkLevelEnd` below models that decision as a pure
function), so it contributes nothing to this transition. -/
def trySwap (fuel : Nat) (st : GState) (row1 col1 row2 col2 : Nat) : Option GState :=
  let g1 := swapCells st.grid row1 col1 row2 col2
  let ms := findAllMatches g1
  if ms.isEmpty then
    let g2 := swapCells g1 row1 col1 row2 col2
    endOfSwapShuffle fuel { st with grid := g2 }
  else
    let st1 := { st with grid := g1, movesLeft := st.movesLeft - 1 }
    match processMatches fuel ms 0 st1 with
    | none => none
    | some st2 => endOfSwapShuffle fuel st2

/-- `isAdjacent(pos1, pos2)`: Math.abs row/col differences, exactly one
step apart, not diagonal. -/
def isAdjacent (pos1 pos2 : Nat × Nat) : Bool :=
  let rowDiff := ((pos1.1 : Int) - pos2.1).natAbs
  let colDiff := ((pos1.2 : Int) - pos2.2).natAbs
  (rowDiff = 1 && colDiff = 0) || (rowDiff = 0 && colDiff = 1)

/-- What a click ends up doing in `handleGemClick`, distinguishing the
paths of the handler: ignored while processing, first selection,
deselection of the same cell, reselection of a non-adjacent cell, or an
actual swap attempt handed to `trySwap`. -/
inductive ClickResult where
  | ignored
  | selectedNew
  | deselected
  | reselected
  | swapAttempted
  deriving DecidableEq

/-- `handleGemClick(row, col)`: the dispatch of a click given the current
selection; only the adjacent-cell path reaches `trySwap`. -/
def handleGemClick (fuel : Nat) (st : GState) (selectedGem : Option (Nat × Nat))
    (isProcessing : Bool) (row col : Nat) :
    Option (GState × Option (Nat × Nat) × ClickResult) :=
  if isProcessing then some (st, selectedGem, ClickResult.ignored)
  else
    match selectedGem with
    | none => some (st, some (row, col), ClickResult.selectedNew)
    | some sel =>
      if sel.1 = row ∧ sel.2 = col then some (st, none, ClickResult.deselected)
      else if isAdjacent sel (row, col) then
        (trySwap fuel st sel.1 sel.2 row col).map
          fun st1 => (st1, none, ClickResult.swapAttempted)
      else some (st, some (row, col), ClickResult.reselected)

/-- A level's `goals` object: each clause optional, as in `levels.js`. -/
structure Goals where
  score : Option Nat
  collectGem : Option (Int × Nat)
  collectGem2 : Option (Int × Nat)
  collectGem3 : Option (Int × Nat)
  collectAny : Option Nat

/-- `checkAllGoalsComplete(goals)`: the sequence of early-false checks. -/
def checkAllGoalsComplete (goals : Goals) (score : Nat) (gemsCollected : Int → Nat)
    (totalGemsCollected : Nat) : Bool :=
  if (match goals.score with | some t => decide (score < t) | none => false) then false
  else if (match goals.collectGem with
           | some tc => decide (gemsCollected tc.1 < tc.2)
           | none => false) then false
  else if (match goals.collectGem2 with
           | some tc => decide (gemsCollected tc.1 < tc.2)
           | none => false) then false
  else if (match goals.collectGem3 with
           | some tc => decide (gemsCollected tc.1 < tc.2)
           | none => false) then false
  else if (match goals.collectAny with
           | some t => decide (totalGemsCollected < t)
           | none => false) then false
  else true

/-- The terminal decision `checkLevelEnd` reaches. -/
inductive Outcome where
  | inProgress
  | complete
  | failed
  deriving DecidableEq

/-- `checkLevelEnd()`: complete when all goals hold; otherwise, once
`movesLeft <= 0`, re-check the goals one last time and fail if they still
do not hold; otherwise the level continues. -/
def checkLevelEnd (goals : Goals) (score : Nat) (gemsCollected : Int → Nat)
    (totalGemsCollected : Nat) (movesLeft : Int) : Outcome :=
  if checkAllGoalsComplete goals score gemsCollected totalGemsCollected then
    Outcome.complete
  else if movesLeft ≤ 0 then
    if checkAllGoalsComplete goals score gemsCollected totalGemsCollected then
      Outcome.complete
    else Outcome.failed
  else Outcome.inProgress

/-- `calculateStars(level)`: three sequential threshold upgrades starting
from 0 stars. -/
def calculateStars (score : Nat) (starThresholds : List Nat) : Nat :=
  let stars := 0
  let stars := if score ≥ starThresholds.getD 0 0 then 1 else stars
  let stars := if score ≥ starThresholds.getD 1 0 then 2 else stars
  if score ≥ starThresholds.getD 2 0 then 3 else stars

/-- One entry of `levelProgress`. -/
structure ProgressRec where
  completed : Bool
  stars : Nat
  bestScore : Nat
  deriving DecidableEq

/-- The progress update in `showLevelComplete`: `Math.max` against the
existing record (absent fields default to 0 via `|| 0`). -/
def updateProgress (existing : Option ProgressRec) (stars score : Nat) : ProgressRec :=
  { completed := true
    stars := max ((existing.map ProgressRec.stars).getD 0) stars
    bestScore := max ((existing.map ProgressRec.bestScore).getD 0) score }

/-! ## Basic grid lemmas -/

theorem getD_set {α : Type} (l : List α) (n m : Nat) (a d : α) :
    (l.set n a).getD m d = if m = n ∧ n < l.length then a else l.getD m d := by
  simp only [List.getD_eq_getD_get?, List.get?_eq_getElem?, List.getElem?_set]
  rcases Decidable.em (m = n) with h | h
  · subst h
    rcases Decidable.em (m < l.length) with h2 | h2
    · simp [h2]
    · simp [h2, List.getElem?_eq_none (Nat.le_of_not_lt h2)]
  · rw [if_neg (Ne.symm h), if_neg (by intro hh; exact h hh.1)]

theorem rowLen {g : Grid} (h : WF g) {r : Nat} (hr : r < ROWS) :
    (g.getD r []).length = COLS := by
  obtain ⟨hl, hrow⟩ := h
  have hlt : r < g.length := by rw [hl]; exact hr
  rw [List.getD_eq_getElem _ _ hlt]
  exact hrow _ (List.getElem_mem hlt)

theorem WF_setCell {g : Grid} (h : WF g) (r c : Nat) (v : Int) :
    WF (setCell g r c v) := by
  rcases Decidable.em (r < g.length) with h2 | h2
  · obtain ⟨hl, hrow⟩ := h
    refine ⟨by simp [setCell, hl], ?_⟩
    intro row hmem
    rcases List.mem_or_eq_of_mem_set hmem with h1 | h1
    · exact hrow _ h1
    · subst h1
      rw [List.length_set]
      exact rowLen ⟨hl, hrow⟩ (by rw [← hl]; exact h2)
  · unfold setCell
    rw [List.set_eq_of_length_le (Nat.le_of_not_lt h2)]
    exact h

theorem getCell_setCell {g : Grid} (h : WF g) {r c : Nat} (hr : r < ROWS) (hc : c < COLS)
    (v : Int) (r' c' : Nat) :
    getCell (setCell g r c v) r' c' =
      if r' = r ∧ c' = c then v else getCell g r' c' := by
  have hlt : r < g.length := by rw [h.1]; exact hr
  unfold getCell setCell
  rw [getD_set]
  rcases Decidable.em (r' = r) with he | he
  · subst he
    rw [if_pos ⟨rfl, hlt⟩, getD_set, rowLen h hr]
    simp only [true_and]
    rcases Decidable.em (c' = c) with hce | hce
    · rw [if_pos ⟨hce, hc⟩, if_pos hce]
    · rw [if_neg (by intro hh; exact hce hh.1), if_neg hce]
  · rw [if_neg (by intro hh; exact he hh.1), if_neg (by intro hh; exact he hh.1)]

theorem grid_ext {g g' : Grid} (h : WF g) (h' : WF g')
    (he : ∀ r < ROWS, ∀ c < COLS, getCell g r c = getCell g' r c) : g = g' := by
  apply List.ext_getElem
  · rw [h.1, h'.1]
  · intro r hr hr'
    have hrR : r < ROWS := by rw [← h.1]; exact hr
    apply List.ext_getElem
    · rw [h.2 _ (List.getElem_mem hr), h'.2 _ (List.getElem_mem hr')]
    · intro c hc hc'
      have hcC : c < COLS := by rw [← h.2 _ (List.getElem_mem hr)]; exact hc
      have e1 : getCell g r c = g[r][c] := by
        unfold getCell
        rw [List.getD_eq_getElem _ _ hr]
        exact List.getD_eq_getElem _ _ hc
      have e2 : getCell g' r c = g'[r][c] := by
        unfold getCell
        rw [List.getD_eq_getElem _ _ hr']
        exact List.getD_eq_getElem _ _ hc'
      rw [← e1, ← e2]
      exact he r hrR c hcC

theorem setCell_self {g : Grid} (h : WF g) {r c : Nat} (hr : r < ROWS) (hc : c < COLS) :
    setCell g r c (getCell g r c) = g := by
  apply grid_ext (WF_setCell h r c _) h
  intro r' hr' c' hc'
  rw [getCell_setCell h hr hc]
  rcases Decidable.em (r' = r ∧ c' = c) with he | he
  · rw [if_pos he, he.1, he.2]
  · rw [if_neg he]

theorem WF_swapCells {g : Grid} (h : WF g) (r1 c1 r2 c2 : Nat) :
    WF (swapCells g r1 c1 r2 c2) :=
  WF_setCell (WF_setCell h _ _ _) _ _ _

theorem getCell_swapCells {g : Grid} (h : WF g) {r1 c1 r2 c2 : Nat}
    (h1 : r1 < ROWS) (h2 : c1 < COLS) (h3 : r2 < ROWS) (h4 : c2 < COLS) (r c : Nat) :
    getCell (swapCells g r1 c1 r2 c2) r c =
      if r = r2 ∧ c = c2 then getCell g r1 c1
      else if r = r1 ∧ c = c1 then getCell g r2 c2
      else getCell g r c := by
  unfold swapCells
  rw [getCell_setCell (WF_setCell h _ _ _) h3 h4, getCell_setCell h h1 h2]

theorem swapCells_involutive {g : Grid} (h : WF g) {r1 c1 r2 c2 : Nat}
    (h1 : r1 < ROWS) (h2 : c1 < COLS) (h3 : r2 < ROWS) (h4 : c2 < COLS) :
    swapCells (swapCells g r1 c1 r2 c2) r1 c1 r2 c2 = g := by
  have hW := WF_swapCells h r1 c1 r2 c2
  apply grid_ext (WF_swapCells hW r1 c1 r2 c2) h
  intro r hr c hc
  rw [getCell_swapCells hW h1 h2 h3 h4, getCell_swapCells h h1 h2 h3 h4,
    getCell_swapCells h h1 h2 h3 h4, getCell_swapCells h h1 h2 h3 h4]
  split_ifs <;> simp_all


/-! ## Gravity: the per-column loop compacts non-Empty cells downward -/

/-- Loop invariant of the `applyGravity` inner loop, relative to the
column's original contents `col₀`: rows `< r` are untouched, the cursor
`e` (carried as `emptyRow + 1`) splits the processed zone into `-1`s
below `r` and the already-compacted non-Empty suffix. -/
def gravInv (col₀ : List Int) (r : Nat) (col : List Int) (e : Nat) : Prop :=
  col.length = 8 ∧
  e + ((col₀.drop r).filter (fun v => v ≠ -1)).length = 8 ∧
  (∀ i, i < r → col.getD i 0 = col₀.getD i 0) ∧
  (∀ i, r ≤ i → i < e → col.getD i 0 = -1) ∧
  (∀ i, e ≤ i → i < 8 → col.getD i 0 = ((col₀.drop r).filter (fun v => v ≠ -1)).getD (i - e) 0)

theorem gravityAux_inv (col₀ : List Int) (h8 : col₀.length = 8) :
    ∀ r col e, r ≤ 8 → gravInv col₀ r col e →
      gravInv col₀ 0 (gravityAux r col e).1 (gravityAux r col e).2 := by
  intro r
  induction r with
  | zero => intro col e _ hI; exact hI
  | succ r ih =>
    intro col e hr8 hI
    obtain ⟨hlen, hcount, hpre, hmid, hsuf⟩ := hI
    have hrlt : r < col₀.length := by omega
    have hdrop : col₀.drop r = col₀.getD r 0 :: col₀.drop (r + 1) := by
      rw [List.getD_eq_getElem _ _ hrlt]
      exact List.drop_eq_getElem_cons hrlt
    have hcur : col.getD r 0 = col₀.getD r 0 := hpre r (Nat.lt_succ_self r)
    have hklen : ((col₀.drop (r+1)).filter (fun v => v ≠ -1)).length ≤ 8 - (r + 1) := by
      calc ((col₀.drop (r+1)).filter (fun v => v ≠ -1)).length
        ≤ (col₀.drop (r+1)).length := List.length_filter_le _ _
        _ = 8 - (r + 1) := by rw [List.length_drop, h8]
    show gravInv col₀ 0 (gravityAux (r+1) col e).1 (gravityAux (r+1) col e).2
    unfold gravityAux
    rcases Decidable.em (col.getD r 0 ≠ -1) with hv | hv
    · rw [if_pos hv]
      have hfil : (col₀.drop r).filter (fun v => v ≠ -1) =
          col₀.getD r 0 :: (col₀.drop (r+1)).filter (fun v => v ≠ -1) := by
        rw [hdrop, List.filter_cons, if_pos (by rw [← hcur]; simpa using hv)]
      have hegt : r + 1 ≤ e := by omega
      have hele : e ≤ 8 := by omega
      rcases Decidable.em (r + 1 = e) with hee | hee
      · rw [if_pos hee]
        apply ih _ _ (by omega)
        refine ⟨hlen, ?_, ?_, ?_, ?_⟩
        · rw [hfil]
          simp only [List.length_cons]
          omega
        · intro i hi
          exact hpre i (by omega)
        · intro i hi1 hi2
          exact absurd hi2 (by omega)
        · intro i hi1 hi2
          rcases Decidable.em (i = e - 1) with hie | hie
          · subst hie
            rw [hfil, Nat.sub_self, List.getD_cons_zero]
            have hrr : e - 1 = r := by omega
            rw [hrr]
            exact hcur
          · rw [hsuf i (by omega) hi2, hfil]
            have ha : i - (e - 1) = (i - e) + 1 := by omega
            rw [ha, List.getD_cons_succ]
      · rw [if_neg hee]
        have hegt2 : r + 1 < e := by omega
        apply ih _ _ (by omega)
        have hlen2 : ((col.set (e-1) (col.getD r 0)).set r (-1)).length = 8 := by
          simp [hlen]
        refine ⟨hlen2, ?_, ?_, ?_, ?_⟩
        · rw [hfil]
          simp only [List.length_cons]
          omega
        · intro i hi
          rw [getD_set, if_neg (by rintro ⟨h1, -⟩; omega), getD_set,
            if_neg (by rintro ⟨h1, -⟩; omega)]
          exact hpre i (by omega)
        · intro i hi1 hi2
          rcases Decidable.em (i = r) with hir | hir
          · subst hir
            rw [getD_set, if_pos ⟨rfl, by simp [hlen]; omega⟩]
          · rw [getD_set, if_neg (by rintro ⟨h1, -⟩; omega), getD_set,
              if_neg (by rintro ⟨h1, -⟩; omega)]
            exact hmid i (by omega) (by omega)
        · intro i hi1 hi2
          rcases Decidable.em (i = e - 1) with hie | hie
          · subst hie
            rw [getD_set, if_neg (by rintro ⟨h1, -⟩; omega), getD_set,
              if_pos ⟨rfl, by omega⟩, hfil, Nat.sub_self, List.getD_cons_zero]
            exact hcur
          · rw [getD_set, if_neg (by rintro ⟨h1, -⟩; omega), getD_set,
              if_neg (by rintro ⟨h1, -⟩; omega), hsuf i (by omega) hi2, hfil]
            have ha : i - (e - 1) = (i - e) + 1 := by omega
            rw [ha, List.getD_cons_succ]
    · rw [if_neg hv]
      have hveq : col.getD r 0 = -1 := by
        by_contra hc
        exact hv hc
      have hfil : (col₀.drop r).filter (fun v => v ≠ -1) =
          (col₀.drop (r+1)).filter (fun v => v ≠ -1) := by
        rw [hdrop, List.filter_cons, if_neg (by rw [← hcur, hveq]; simp)]
      apply ih _ _ (by omega)
      refine ⟨hlen, by rw [hfil]; exact hcount, ?_, ?_, ?_⟩
      · intro i hi
        exact hpre i (by omega)
      · intro i hi1 hi2
        rcases Decidable.em (i = r) with hir | hir
        · subst hir
          exact hveq
        · exact hmid i (by omega) hi2
      · intro i hi1 hi2
        rw [hsuf i hi1 hi2, hfil]


theorem list_ext_getD {l l' : List Int} (h : l.length = l'.length)
    (he : ∀ i < l.length, l.getD i 0 = l'.getD i 0) : l = l' := by
  apply List.ext_getElem h
  intro i h1 h2
  have := he i h1
  rwa [List.getD_eq_getElem _ _ h1, List.getD_eq_getElem _ _ h2] at this

theorem applyGravityCol_eq (col : List Int) (h8 : col.length = 8) :
    applyGravityCol col =
      List.replicate (8 - (col.filter (fun v => v ≠ -1)).length) (-1) ++
        col.filter (fun v => v ≠ -1) := by
  have hk : (col.filter (fun v => v ≠ -1)).length ≤ 8 := by
    calc (col.filter (fun v => v ≠ -1)).length ≤ col.length := List.length_filter_le _ _
      _ = 8 := h8
  have hinit : gravInv col 8 col 8 := by
    refine ⟨h8, ?_, fun i _ => rfl, fun i h1 h2 => by omega, fun i h1 h2 => by omega⟩
    rw [List.drop_eq_nil_of_le (by omega)]
    simp
  have hfin := gravityAux_inv col h8 8 col 8 (le_refl 8) hinit
  obtain ⟨hlen, hcount, -, hmid, hsuf⟩ := hfin
  rw [List.drop_zero] at hcount hsuf
  set res := (gravityAux 8 col 8).1 with hres
  set e := (gravityAux 8 col 8).2 with he
  have heval : e = 8 - (col.filter (fun v => v ≠ -1)).length := by omega
  show res = _
  apply list_ext_getD
  · rw [hlen, List.length_append, List.length_replicate]
    omega
  · intro i hi
    rw [hlen] at hi
    rcases Decidable.em (i < e) with hie | hie
    · rw [hmid i (by omega) hie]
      rw [List.getD_append _ _ _ _ (by rw [List.length_replicate]; omega)]
      rw [List.getD_eq_getElem _ _ (by rw [List.length_replicate]; omega)]
      exact (List.getElem_replicate _ _).symm
    · rw [hsuf i (by omega) hi]
      rw [List.getD_append_right _ _ _ _ (by rw [List.length_replicate]; omega)]
      rw [List.length_replicate]
      congr 1
      omega


theorem WF_setCol {g : Grid} (h : WF g) (c : Nat) (l : List Int) :
    WF (setCol g c l) := by
  unfold setCol
  generalize (List.range ROWS) = rows
  induction rows generalizing g with
  | nil => exact h
  | cons r rows ih => exact ih (WF_setCell h _ _ _)

theorem getCell_setColAux {c : Nat} (hc : c < COLS) (l : List Int) :
    ∀ (rows : List Nat) (g : Grid), WF g → (∀ x ∈ rows, x < ROWS) →
      ∀ r' c', getCell (rows.foldl (fun acc row => setCell acc row c (l.getD row 0)) g) r' c' =
        if c' = c ∧ r' ∈ rows then l.getD r' 0 else getCell g r' c' := by
  intro rows
  induction rows with
  | nil => intro g hW _ r' c'; simp
  | cons row rows ih =>
    intro g hW hmem r' c'
    rw [List.foldl_cons, ih _ (WF_setCell hW _ _ _) (fun x hx => hmem x (by simp [hx])),
      getCell_setCell hW (hmem row (by simp)) hc]
    rcases Decidable.em (c' = c) with hcc | hcc
    · subst hcc
      rcases Decidable.em (r' ∈ rows) with hrr | hrr
      · simp [hrr]
      · rcases Decidable.em (r' = row) with hre | hre
        · subst hre; simp
        · simp [hrr, hre]
    · simp [hcc]

theorem getCell_setCol {g : Grid} (h : WF g) {c : Nat} (hc : c < COLS) (l : List Int)
    (r' c' : Nat) :
    getCell (setCol g c l) r' c' =
      if c' = c ∧ r' < ROWS then l.getD r' 0 else getCell g r' c' := by
  unfold setCol
  rw [getCell_setColAux hc l (List.range ROWS) g h (fun x hx => List.mem_range.1 hx)]
  simp [List.mem_range]

theorem colList_length (g : Grid) (c : Nat) : (colList g c).length = ROWS := by
  simp [colList]

theorem colList_getD (g : Grid) (c : Nat) {r : Nat} (hr : r < ROWS) :
    (colList g c).getD r 0 = getCell g r c := by
  unfold colList
  rw [List.getD_eq_getElem _ _ (by simpa using hr)]
  simp

theorem map_range_getD (l : List Int) (h8 : l.length = ROWS) :
    (List.range ROWS).map (fun r => l.getD r 0) = l := by
  apply List.ext_getElem
  · simp [h8]
  · intro i h1 h2
    simp only [List.getElem_map, List.getElem_range]
    rw [List.getD_eq_getElem _ _ h2]

theorem colList_setCol_self {g : Grid} (h : WF g) {c : Nat} (hc : c < COLS)
    (l : List Int) (h8 : l.length = ROWS) :
    colList (setCol g c l) c = l := by
  unfold colList
  have : ∀ r ∈ List.range ROWS, getCell (setCol g c l) r c = l.getD r 0 := by
    intro r hr
    rw [getCell_setCol h hc]
    simp [List.mem_range.1 hr]
  rw [List.map_congr_left fun r hr => this r hr]
  exact map_range_getD l h8

theorem colList_setCol_other {g : Grid} (h : WF g) {c : Nat} (hc : c < COLS)
    (l : List Int) {c' : Nat} (hne : c' ≠ c) :
    colList (setCol g c l) c' = colList g c' := by
  unfold colList
  apply List.map_congr_left
  intro r _
  rw [getCell_setCol h hc]
  simp [hne]

theorem applyGravityCol_length (col : List Int) (h8 : col.length = 8) :
    (applyGravityCol col).length = 8 := by
  rw [applyGravityCol_eq col h8, List.length_append, List.length_replicate]
  have : (col.filter (fun v => v ≠ -1)).length ≤ 8 := by
    calc (col.filter (fun v => v ≠ -1)).length ≤ col.length := List.length_filter_le _ _
      _ = 8 := h8
  omega

theorem applyGravity_colsAux :
    ∀ (cols : List Nat) (g : Grid), WF g → (∀ x ∈ cols, x < COLS) → cols.Nodup →
      WF (cols.foldl (fun acc col => setCol acc col (applyGravityCol (colList acc col))) g) ∧
      ∀ c', (c' ∈ cols →
          colList (cols.foldl (fun acc col => setCol acc col (applyGravityCol (colList acc col))) g) c' =
            applyGravityCol (colList g c')) ∧
        (c' ∉ cols →
          colList (cols.foldl (fun acc col => setCol acc col (applyGravityCol (colList acc col))) g) c' =
            colList g c') := by
  intro cols
  induction cols with
  | nil => intro g hW _ _; exact ⟨hW, fun c' => ⟨fun h => absurd h (List.not_mem_nil c'), fun _ => rfl⟩⟩
  | cons c cols ih =>
    intro g hW hmem hnd
    have hcC : c < COLS := hmem c (by simp)
    have hW1 : WF (setCol g c (applyGravityCol (colList g c))) := WF_setCol hW _ _
    have hih := ih (setCol g c (applyGravityCol (colList g c))) hW1
      (fun x hx => hmem x (by simp [hx])) (List.nodup_cons.1 hnd).2
    rw [List.foldl_cons]
    refine ⟨hih.1, fun c' => ⟨?_, ?_⟩⟩
    · intro hc'
      rcases Decidable.em (c' = c) with he | he
      · subst he
        have hnotin : c' ∉ cols := (List.nodup_cons.1 hnd).1
        rw [(hih.2 c').2 hnotin]
        exact colList_setCol_self hW hcC _ (applyGravityCol_length _ (colList_length g c'))
      · have hin : c' ∈ cols := by
          rcases List.mem_cons.1 hc' with h | h
          · exact absurd h he
          · exact h
        rw [(hih.2 c').1 hin, colList_setCol_other hW hcC _ he]
    · intro hc'
      have h1 : c' ∉ cols := fun h => hc' (by simp [h])
      have h2 : c' ≠ c := fun h => hc' (by simp [h])
      rw [(hih.2 c').2 h1, colList_setCol_other hW hcC _ h2]

theorem WF_applyGravity {g : Grid} (h : WF g) : WF (applyGravity g) :=
  (applyGravity_colsAux (List.range COLS) g h (fun _ hx => List.mem_range.1 hx)
    (List.nodup_range COLS)).1

theorem colList_applyGravity {g : Grid} (h : WF g) {c : Nat} (hc : c < COLS) :
    colList (applyGravity g) c = applyGravityCol (colList g c) :=
  ((applyGravity_colsAux (List.range COLS) g h (fun _ hx => List.mem_range.1 hx)
    (List.nodup_range COLS)).2 c).1 (List.mem_range.2 hc)


theorem gravity_perm (col : List Int) (h8 : col.length = 8) :
    (List.replicate (8 - (col.filter (fun v => v ≠ -1)).length) (-1) ++
      col.filter (fun v => v ≠ -1)).Perm col := by
  have hp := List.filter_append_perm (fun v => decide (v ≠ -1)) col
  have hlen := hp.length_eq
  rw [List.length_append, h8] at hlen
  have hrep : col.filter (fun x => !(decide (x ≠ -1))) =
      List.replicate (8 - (col.filter (fun v => v ≠ -1)).length) (-1) := by
    rw [List.eq_replicate_iff]
    constructor
    · omega
    · intro b hb
      have := List.of_mem_filter hb
      simpa using this
  refine List.Perm.trans List.perm_append_comm ?_
  rw [← hrep]
  exact hp


/-- C7: `applyGravity` acts on each column independently: empties rise to
the top, the non-Empty cells are compacted at the bottom in their
original top-to-bottom order, the column's multiset of values is
preserved, and a column's result depends on that column alone. -/
theorem C7_applyGravity_column_compaction :
    ∀ (g : Grid), WF g → ∀ c, c < COLS →
      colList (applyGravity g) c =
        List.replicate (8 - ((colList g c).filter (fun v => v ≠ -1)).length) (-1) ++
          (colList g c).filter (fun v => v ≠ -1) ∧
      (colList (applyGravity g) c).Perm (colList g c) ∧
      ∀ (g' : Grid), WF g' → colList g' c = colList g c →
        colList (applyGravity g') c = colList (applyGravity g) c := by
  intro g hW c hc
  have h8 : (colList g c).length = 8 := colList_length g c
  refine ⟨?_, ?_, ?_⟩
  · rw [colList_applyGravity hW hc]
    exact applyGravityCol_eq _ h8
  · rw [colList_applyGravity hW hc, applyGravityCol_eq _ h8]
    exact gravity_perm _ h8
  · intro g' hW' he
    rw [colList_applyGravity hW' hc, colList_applyGravity hW hc, he]


/-! ## Refill and removal preserve well-formedness; refill leaves no Empty cell -/

theorem WF_removeMatches {g : Grid} (h : WF g) (ms : List (Nat × Nat)) :
    WF (removeMatches g ms) := by
  unfold removeMatches
  induction ms generalizing g with
  | nil => exact h
  | cons p ms ih => exact ih (WF_setCell h _ _ _)

theorem WF_fillEmptySpaces {g : Grid} (h : WF g) (rng : Nat → Nat) (idx : Nat) :
    WF (fillEmptySpaces g rng idx).1 := by
  unfold fillEmptySpaces
  generalize colMajorCells = cells
  induction cells generalizing g idx with
  | nil => exact h
  | cons p cells ih =>
    rw [List.foldl_cons]
    rcases Decidable.em (getCell g p.1 p.2 = -1) with he | he
    · rw [if_pos he]
      exact ih (WF_setCell h _ _ _) _
    · rw [if_neg he]
      exact ih h _

theorem mem_colMajorCells {r c : Nat} (hr : r < ROWS) (hc : c < COLS) :
    (r, c) ∈ colMajorCells := by
  unfold colMajorCells
  rw [List.mem_flatMap]
  exact ⟨c, List.mem_range.2 hc, List.mem_map.2 ⟨r, List.mem_range.2 hr, rfl⟩⟩

/-- After the fill fold has processed a cell, that cell is non-Empty and
stays so; cells not processed keep their value. -/
theorem fill_foldAux (rng : Nat → Nat) :
    ∀ (cells : List (Nat × Nat)) (g : Grid) (idx : Nat), WF g →
      (∀ p ∈ cells, p.1 < ROWS ∧ p.2 < COLS) →
      WF (cells.foldl (fun s p =>
            if getCell s.1 p.1 p.2 = -1 then
              (setCell s.1 p.1 p.2 (Int.ofNat (rng s.2 % NUM_GEM_TYPES)), s.2 + 1)
            else s) (g, idx)).1 ∧
      ∀ r c,
        ((r, c) ∈ cells →
          getCell (cells.foldl (fun s p =>
            if getCell s.1 p.1 p.2 = -1 then
              (setCell s.1 p.1 p.2 (Int.ofNat (rng s.2 % NUM_GEM_TYPES)), s.2 + 1)
            else s) (g, idx)).1 r c ≠ -1) ∧
        ((r, c) ∉ cells →
          getCell (cells.foldl (fun s p =>
            if getCell s.1 p.1 p.2 = -1 then
              (setCell s.1 p.1 p.2 (Int.ofNat (rng s.2 % NUM_GEM_TYPES)), s.2 + 1)
            else s) (g, idx)).1 r c = getCell g r c) := by
  intro cells
  induction cells with
  | nil =>
    intro g idx hW _
    exact ⟨hW, fun r c => ⟨fun h => absurd h (List.not_mem_nil _), fun _ => rfl⟩⟩
  | cons p cells ih =>
    intro g idx hW hmem
    have hp := hmem p (by simp)
    rw [List.foldl_cons]
    rcases Decidable.em (getCell g p.1 p.2 = -1) with he | he
    · rw [if_pos he]
      have hW1 : WF (setCell g p.1 p.2 (Int.ofNat (rng idx % NUM_GEM_TYPES))) :=
        WF_setCell hW _ _ _
      have hih := ih (setCell g p.1 p.2 (Int.ofNat (rng idx % NUM_GEM_TYPES))) (idx + 1) hW1
        (fun q hq => hmem q (by simp [hq]))
      refine ⟨hih.1, fun r c => ⟨?_, ?_⟩⟩
      · intro hrc
        rcases Decidable.em ((r, c) ∈ cells) with hin | hin
        · exact ((hih.2 r c).1 hin)
        · have hpe : (r, c) = p := by
            rcases List.mem_cons.1 hrc with h | h
            · exact h
            · exact absurd h hin
          rw [(hih.2 r c).2 hin, getCell_setCell hW hp.1 hp.2]
          have : r = p.1 ∧ c = p.2 := by
            constructor
            · rw [← hpe]
            · rw [← hpe]
          rw [if_pos this]
          intro hcon
          cases hcon
      · intro hrc
        have h1 : (r, c) ∉ cells := fun h => hrc (by simp [h])
        have h2 : ¬ (r = p.1 ∧ c = p.2) := by
          intro hh
          apply hrc
          have : (r, c) = p := by
            rcases p with ⟨p1, p2⟩
            simp_all
          simp [this]
        rw [(hih.2 r c).2 h1, getCell_setCell hW hp.1 hp.2, if_neg h2]
    · rw [if_neg he]
      have hih := ih g idx hW (fun q hq => hmem q (by simp [hq]))
      refine ⟨hih.1, fun r c => ⟨?_, ?_⟩⟩
      · intro hrc
        rcases Decidable.em ((r, c) ∈ cells) with hin | hin
        · exact (hih.2 r c).1 hin
        · have hpe : (r, c) = p := by
            rcases List.mem_cons.1 hrc with h | h
            · exact h
            · exact absurd h hin
          rw [(hih.2 r c).2 hin]
          obtain ⟨h1, h2⟩ : r = p.1 ∧ c = p.2 := by
            rw [← hpe]
            exact ⟨rfl, rfl⟩
          rw [h1, h2]
          exact he
      · intro hrc
        exact (hih.2 r c).2 fun h => hrc (by simp [h])

/-- Every in-range cell is non-Empty after `fillEmptySpaces`. -/
theorem fillEmptySpaces_noEmpty {g : Grid} (h : WF g) (rng : Nat → Nat) (idx : Nat)
    {r c : Nat} (hr : r < ROWS) (hc : c < COLS) :
    getCell (fillEmptySpaces g rng idx).1 r c ≠ -1 := by
  unfold fillEmptySpaces
  exact ((fill_foldAux rng colMajorCells g idx h fun p hp => by
    unfold colMajorCells at hp
    rw [List.mem_flatMap] at hp
    obtain ⟨col, hcol, hp2⟩ := hp
    rw [List.mem_map] at hp2
    obtain ⟨row, hrow, hp3⟩ := hp2
    rw [← hp3]
    exact ⟨List.mem_range.1 hrow, List.mem_range.1 hcol⟩).2 r c).1
    (mem_colMajorCells hr hc)


/-! ## Match detector: bounds and completeness of the scan -/

theorem mem_insertPos {acc : List (Nat × Nat)} {p a : Nat × Nat} :
    a ∈ insertPos acc p ↔ a ∈ acc ∨ a = p := by
  unfold insertPos
  rcases Decidable.em (p ∈ acc) with h | h
  · rw [if_pos h]
    constructor
    · exact Or.inl
    · rintro (hh | hh)
      · exact hh
      · rw [hh]; exact h
  · rw [if_neg h]
    simp

theorem insertPos_ne_nil (acc : List (Nat × Nat)) (p : Nat × Nat) :
    insertPos acc p ≠ [] := by
  unfold insertPos
  rcases Decidable.em (p ∈ acc) with h | h
  · rw [if_pos h]
    intro he
    rw [he] at h
    exact List.not_mem_nil p h
  · rw [if_neg h]
    simp

theorem extendH_ge (g : Grid) (row : Nat) (v : Int) :
    ∀ fuel matchEnd, matchEnd ≤ extendH fuel g row matchEnd v := by
  intro fuel
  induction fuel with
  | zero => intro matchEnd; exact le_refl _
  | succ fuel ih =>
    intro matchEnd
    unfold extendH
    rcases Decidable.em (matchEnd + 1 < COLS ∧ getCell g row (matchEnd + 1) = v) with hc | hc
    · rw [if_pos hc]
      exact le_trans (Nat.le_succ _) (ih _)
    · rw [if_neg hc]

theorem extendV_ge (g : Grid) (col : Nat) (v : Int) :
    ∀ fuel matchEnd, matchEnd ≤ extendV fuel g col matchEnd v := by
  intro fuel
  induction fuel with
  | zero => intro matchEnd; exact le_refl _
  | succ fuel ih =>
    intro matchEnd
    unfold extendV
    rcases Decidable.em (matchEnd + 1 < ROWS ∧ getCell g (matchEnd + 1) col = v) with hc | hc
    · rw [if_pos hc]
      exact le_trans (Nat.le_succ _) (ih _)
    · rw [if_neg hc]

theorem extendH_lt (g : Grid) (row : Nat) (v : Int) :
    ∀ fuel matchEnd, matchEnd < COLS → extendH fuel g row matchEnd v < COLS := by
  intro fuel
  induction fuel with
  | zero => intro matchEnd h; exact h
  | succ fuel ih =>
    intro matchEnd h
    unfold extendH
    rcases Decidable.em (matchEnd + 1 < COLS ∧ getCell g row (matchEnd + 1) = v) with hc | hc
    · rw [if_pos hc]
      exact ih _ hc.1
    · rw [if_neg hc]
      exact h

theorem extendV_lt (g : Grid) (col : Nat) (v : Int) :
    ∀ fuel matchEnd, matchEnd < ROWS → extendV fuel g col matchEnd v < ROWS := by
  intro fuel
  induction fuel with
  | zero => intro matchEnd h; exact h
  | succ fuel ih =>
    intro matchEnd h
    unfold extendV
    rcases Decidable.em (matchEnd + 1 < ROWS ∧ getCell g (matchEnd + 1) col = v) with hc | hc
    · rw [if_pos hc]
      exact ih _ hc.1
    · rw [if_neg hc]
      exact h

theorem mem_foldl_insertPos (f : Nat → Nat × Nat) :
    ∀ (l : List Nat) (acc : List (Nat × Nat)) (a : Nat × Nat),
      a ∈ l.foldl (fun ac i => insertPos ac (f i)) acc ↔ a ∈ acc ∨ ∃ i ∈ l, a = f i := by
  intro l
  induction l with
  | nil => simp
  | cons x l ih =>
    intro acc a
    rw [List.foldl_cons, ih]
    rw [mem_insertPos]
    constructor
    · rintro ((h | h) | ⟨i, hi, he⟩)
      · exact Or.inl h
      · exact Or.inr ⟨x, by simp, h⟩
      · exact Or.inr ⟨i, by simp [hi], he⟩
    · rintro (h | ⟨i, hi, he⟩)
      · exact Or.inl (Or.inl h)
      · rcases List.mem_cons.1 hi with hh | hh
        · exact Or.inl (Or.inr (by rw [he, hh]))
        · exact Or.inr ⟨i, hh, he⟩

theorem foldl_insertPos_ne_nil (f : Nat → Nat × Nat) :
    ∀ (l : List Nat) (acc : List (Nat × Nat)), acc ≠ [] ∨ l ≠ [] →
      l.foldl (fun ac i => insertPos ac (f i)) acc ≠ [] := by
  intro l
  induction l with
  | nil =>
    intro acc h
    rcases h with h | h
    · exact h
    · exact absurd rfl h
  | cons x l ih =>
    intro acc _
    rw [List.foldl_cons]
    exact ih _ (Or.inl (insertPos_ne_nil acc (f x)))

theorem hScanRow_mono (g : Grid) (row : Nat) :
    ∀ fuel col acc, acc ≠ [] → hScanRow fuel g row col acc ≠ [] := by
  intro fuel
  induction fuel with
  | zero => intro col acc h; exact h
  | succ fuel ih =>
    intro col acc h
    unfold hScanRow
    rcases Decidable.em (col < COLS - 2) with h1 | h1
    · rw [if_pos h1]
      rcases Decidable.em (getCell g row (col + 1) = getCell g row col ∧
          getCell g row (col + 2) = getCell g row col) with h2 | h2
      · rw [if_pos h2]
        apply ih
        unfold addHRun
        exact foldl_insertPos_ne_nil _ _ _ (Or.inl h)
      · rw [if_neg h2]
        exact ih _ _ h
    · rw [if_neg h1]
      exact h

theorem vScanCol_mono (g : Grid) (col : Nat) :
    ∀ fuel row acc, acc ≠ [] → vScanCol fuel g col row acc ≠ [] := by
  intro fuel
  induction fuel with
  | zero => intro row acc h; exact h
  | succ fuel ih =>
    intro row acc h
    unfold vScanCol
    rcases Decidable.em (row < ROWS - 2) with h1 | h1
    · rw [if_pos h1]
      rcases Decidable.em (getCell g (row + 1) col = getCell g row col ∧
          getCell g (row + 2) col = getCell g row col) with h2 | h2
      · rw [if_pos h2]
        apply ih
        unfold addVRun
        exact foldl_insertPos_ne_nil _ _ _ (Or.inl h)
      · rw [if_neg h2]
        exact ih _ _ h
    · rw [if_neg h1]
      exact h

/-- A horizontal run of three equal cells starting at `(row, col)`. -/
def hTriple (g : Grid) (row col : Nat) : Prop :=
  getCell g row (col + 1) = getCell g row col ∧
  getCell g row (col + 2) = getCell g row col

/-- A vertical run of three equal cells starting at `(row, col)`. -/
def vTriple (g : Grid) (row col : Nat) : Prop :=
  getCell g (row + 1) col = getCell g row col ∧
  getCell g (row + 2) col = getCell g row col

theorem hScanRow_nil (g : Grid) (row : Nat) :
    ∀ fuel col acc, COLS - 2 - col ≤ fuel → hScanRow fuel g row col acc = [] →
      ∀ c, col ≤ c → c < COLS - 2 → ¬ hTriple g row c := by
  intro fuel
  induction fuel with
  | zero =>
    intro col acc hf _ c h1 h2
    omega
  | succ fuel ih =>
    intro col acc hf hnil c h1 h2
    unfold hScanRow at hnil
    rcases Decidable.em (col < COLS - 2) with hg | hg
    · rw [if_pos hg] at hnil
      rcases Decidable.em (getCell g row (col + 1) = getCell g row col ∧
          getCell g row (col + 2) = getCell g row col) with h3 | h3
      · rw [if_pos h3] at hnil
        exfalso
        apply hScanRow_mono g row fuel _ _ ?_ hnil
        unfold addHRun
        apply foldl_insertPos_ne_nil _ _ _ (Or.inr ?_)
        have hge := extendH_ge g row (getCell g row col) COLS (col + 2)
        intro hempty
        rw [List.range'_eq_nil] at hempty
        omega
      · rw [if_neg h3] at hnil
        rcases Decidable.em (c = col) with he | he
        · subst he
          exact fun ht => h3 ⟨ht.1, ht.2⟩
        · exact ih (col + 1) acc (by omega) hnil c (by omega) h2
    · rw [if_neg hg] at hnil
      omega


theorem vScanCol_nil (g : Grid) (col : Nat) :
    ∀ fuel row acc, ROWS - 2 - row ≤ fuel → vScanCol fuel g col row acc = [] →
      ∀ r, row ≤ r → r < ROWS - 2 → ¬ vTriple g r col := by
  intro fuel
  induction fuel with
  | zero =>
    intro row acc hf _ r h1 h2
    omega
  | succ fuel ih =>
    intro row acc hf hnil r h1 h2
    unfold vScanCol at hnil
    rcases Decidable.em (row < ROWS - 2) with hg | hg
    · rw [if_pos hg] at hnil
      rcases Decidable.em (getCell g (row + 1) col = getCell g row col ∧
          getCell g (row + 2) col = getCell g row col) with h3 | h3
      · rw [if_pos h3] at hnil
        exfalso
        apply vScanCol_mono g col fuel _ _ ?_ hnil
        unfold addVRun
        apply foldl_insertPos_ne_nil _ _ _ (Or.inr ?_)
        have hge := extendV_ge g col (getCell g row col) ROWS (row + 2)
        intro hempty
        rw [List.range'_eq_nil] at hempty
        omega
      · rw [if_neg h3] at hnil
        rcases Decidable.em (r = row) with he | he
        · subst he
          exact fun ht => h3 ⟨ht.1, ht.2⟩
        · exact ih (row + 1) acc (by omega) hnil r (by omega) h2
    · rw [if_neg hg] at hnil
      omega

theorem hScanRow_nil_acc (g : Grid) (row : Nat) (fuel col : Nat)
    (acc : List (Nat × Nat)) (h : hScanRow fuel g row col acc = []) : acc = [] := by
  by_contra hc
  exact hScanRow_mono g row fuel col acc hc h

theorem vScanCol_nil_acc (g : Grid) (col : Nat) (fuel row : Nat)
    (acc : List (Nat × Nat)) (h : vScanCol fuel g col row acc = []) : acc = [] := by
  by_contra hc
  exact vScanCol_mono g col fuel row acc hc h

theorem hPass_nil (g : Grid) :
    ∀ (rows : List Nat) (acc : List (Nat × Nat)),
      rows.foldl (fun acc row => hScanRow COLS g row 0 acc) acc = [] →
      acc = [] ∧ ∀ row ∈ rows, ∀ c, c < COLS - 2 → ¬ hTriple g row c := by
  intro rows
  induction rows with
  | nil => intro acc h; exact ⟨h, by simp⟩
  | cons row rows ih =>
    intro acc h
    rw [List.foldl_cons] at h
    obtain ⟨h1, h2⟩ := ih _ h
    refine ⟨hScanRow_nil_acc g row COLS 0 acc h1, ?_⟩
    intro row' hrow' c hc
    rcases List.mem_cons.1 hrow' with he | he
    · subst he
      exact hScanRow_nil g row' COLS 0 acc (by omega) h1 c (Nat.zero_le c) hc
    · exact h2 row' he c hc

theorem vPass_nil (g : Grid) :
    ∀ (cols : List Nat) (acc : List (Nat × Nat)),
      cols.foldl (fun acc col => vScanCol ROWS g col 0 acc) acc = [] →
      acc = [] ∧ ∀ col ∈ cols, ∀ r, r < ROWS - 2 → ¬ vTriple g r col := by
  intro cols
  induction cols with
  | nil => intro acc h; exact ⟨h, by simp⟩
  | cons col cols ih =>
    intro acc h
    rw [List.foldl_cons] at h
    obtain ⟨h1, h2⟩ := ih _ h
    refine ⟨vScanCol_nil_acc g col ROWS 0 acc h1, ?_⟩
    intro col' hcol' r hr
    rcases List.mem_cons.1 hcol' with he | he
    · subst he
      exact vScanCol_nil g col' ROWS 0 acc (by omega) h1 r (Nat.zero_le r) hr
    · exact h2 col' he r hr

/-- An empty detector result means no horizontal or vertical run of three
equal cells exists anywhere on the board. -/
theorem findAllMatches_nil_noTriple {g : Grid} (h : findAllMatches g = []) :
    (∀ row, row < ROWS → ∀ c, c < COLS - 2 → ¬ hTriple g row c) ∧
    (∀ col, col < COLS → ∀ r, r < ROWS - 2 → ¬ vTriple g r col) := by
  unfold findAllMatches at h
  obtain ⟨hH, hV⟩ := vPass_nil g (List.range COLS) _ h
  obtain ⟨-, hHr⟩ := hPass_nil g (List.range ROWS) [] hH
  constructor
  · intro row hrow c hc
    exact hHr row (List.mem_range.2 hrow) c hc
  · intro col hcol r hr
    exact hV col (List.mem_range.2 hcol) r hr

theorem hScanRow_mem (g : Grid) (row : Nat) :
    ∀ fuel col acc p, p ∈ hScanRow fuel g row col acc →
      p ∈ acc ∨ (p.1 = row ∧ p.2 < COLS) := by
  intro fuel
  induction fuel with
  | zero => intro col acc p h; exact Or.inl h
  | succ fuel ih =>
    intro col acc p h
    unfold hScanRow at h
    rcases Decidable.em (col < COLS - 2) with hg | hg
    · rw [if_pos hg] at h
      rcases Decidable.em (getCell g row (col + 1) = getCell g row col ∧
          getCell g row (col + 2) = getCell g row col) with h3 | h3
      · rw [if_pos h3] at h
        rcases ih _ _ p h with hin | hin
        · unfold addHRun at hin
          rcases (mem_foldl_insertPos _ _ _ _).1 hin with ha | ⟨i, hi, he⟩
          · exact Or.inl ha
          · right
            rw [List.mem_range'] at hi
            have hlt := extendH_lt g row (getCell g row col) COLS (col + 2) (by omega)
            rw [he]
            exact ⟨rfl, by omega⟩
        · exact Or.inr hin
      · rw [if_neg h3] at h
        exact ih _ _ p h
    · rw [if_neg hg] at h
      exact Or.inl h

theorem vScanCol_mem (g : Grid) (col : Nat) :
    ∀ fuel row acc p, p ∈ vScanCol fuel g col row acc →
      p ∈ acc ∨ (p.2 = col ∧ p.1 < ROWS) := by
  intro fuel
  induction fuel with
  | zero => intro row acc p h; exact Or.inl h
  | succ fuel ih =>
    intro row acc p h
    unfold vScanCol at h
    rcases Decidable.em (row < ROWS - 2) with hg | hg
    · rw [if_pos hg] at h
      rcases Decidable.em (getCell g (row + 1) col = getCell g row col ∧
          getCell g (row + 2) col = getCell g row col) with h3 | h3
      · rw [if_pos h3] at h
        rcases ih _ _ p h with hin | hin
        · unfold addVRun at hin
          rcases (mem_foldl_insertPos _ _ _ _).1 hin with ha | ⟨i, hi, he⟩
          · exact Or.inl ha
          · right
            rw [List.mem_range'] at hi
            have hlt := extendV_lt g col (getCell g row col) ROWS (row + 2) (by omega)
            rw [he]
            exact ⟨rfl, by omega⟩
        · exact Or.inr hin
      · rw [if_neg h3] at h
        exact ih _ _ p h
    · rw [if_neg hg] at h
      exact Or.inl h

theorem hPass_mem (g : Grid) :
    ∀ (rows : List Nat) (acc : List (Nat × Nat)) (p : Nat × Nat),
      p ∈ rows.foldl (fun acc row => hScanRow COLS g row 0 acc) acc →
      p ∈ acc ∨ (p.1 ∈ rows ∧ p.2 < COLS) := by
  intro rows
  induction rows with
  | nil => intro acc p h; exact Or.inl h
  | cons row rows ih =>
    intro acc p h
    rw [List.foldl_cons] at h
    rcases ih _ p h with hin | hin
    · rcases hScanRow_mem g row COLS 0 acc p hin with ha | ha
      · exact Or.inl ha
      · exact Or.inr ⟨by rw [ha.1]; simp, ha.2⟩
    · exact Or.inr ⟨by simp [hin.1], hin.2⟩

theorem vPass_mem (g : Grid) :
    ∀ (cols : List Nat) (acc : List (Nat × Nat)) (p : Nat × Nat),
      p ∈ cols.foldl (fun acc col => vScanCol ROWS g col 0 acc) acc →
      p ∈ acc ∨ (p.2 ∈ cols ∧ p.1 < ROWS) := by
  intro cols
  induction cols with
  | nil => intro acc p h; exact Or.inl h
  | cons col cols ih =>
    intro acc p h
    rw [List.foldl_cons] at h
    rcases ih _ p h with hin | hin
    · rcases vScanCol_mem g col ROWS 0 acc p hin with ha | ha
      · exact Or.inl ha
      · exact Or.inr ⟨by rw [ha.1]; simp, ha.2⟩
    · exact Or.inr ⟨by simp [hin.1], hin.2⟩

/-- Positions returned by the detector lie on the board. -/
theorem findAllMatches_mem_bounds (g : Grid) :
    ∀ p ∈ findAllMatches g, p.1 < ROWS ∧ p.2 < COLS := by
  intro p hp
  unfold findAllMatches at hp
  rcases vPass_mem g (List.range COLS) _ p hp with hin | hin
  · rcases hPass_mem g (List.range ROWS) [] p hin with ha | ha
    · exact absurd ha (List.not_mem_nil p)
    · exact ⟨List.mem_range.1 ha.1, ha.2⟩
  · exact ⟨hin.2, List.mem_range.1 hin.1⟩


/-! ## Concrete boards and claim C6 -/

/-- A striped board with no runs, used as a neutral background in the
concrete boards below. -/
def stripeRow (r : Nat) : List Int :=
  (List.range 8).map fun c => (((r + c) % 3 : Nat) : Int)

/-- A board whose first row starts with three Empty cells; the rest is the
match-free stripe pattern. -/
def gEmptyRun : Grid :=
  [-1, -1, -1, 3, 0, 1, 2, 0] :: (List.range' 1 7).map stripeRow

/-- A full (no-Empty) board whose first row starts with a run of four 3s. -/
def gFullRun : Grid :=
  [3, 3, 3, 3, 0, 1, 2, 0] :: (List.range' 1 7).map stripeRow

/-- C6 (as stated, refuted): the detector does not skip the Empty
sentinel, so a row of three `-1` cells is matched: on `gEmptyRun` the
match set contains `(0, 0)` although that cell is Empty. -/
theorem C6_counterexample_empty_cells_match :
    (0, 0) ∈ findAllMatches gEmptyRun ∧ getCell gEmptyRun 0 0 = -1 := by decide

/-- C6 (amended): on a board with no Empty cell — which holds for every
board the engine actually hands to the detector — no position in the
match set holds the Empty sentinel.  (In general the detector treats
`-1` like any gem kind, as the counterexample shows.) -/
theorem C6_matches_never_empty_on_full_boards :
    ∀ (g : Grid), (∀ r, r < ROWS → ∀ c, c < COLS → getCell g r c ≠ -1) →
      ∀ p ∈ findAllMatches g, getCell g p.1 p.2 ≠ -1 := by
  intro g hne p hp
  obtain ⟨h1, h2⟩ := findAllMatches_mem_bounds g p hp
  exact hne p.1 h1 p.2 h2

/-- Witness for C6: the amended theorem applied to the concrete full board
`gFullRun`, whose match set contains `(0, 0)`. -/
theorem C6_witness :
    (0, 0) ∈ findAllMatches gFullRun ∧ getCell gFullRun 0 0 ≠ -1 :=
  ⟨by decide, C6_matches_never_empty_on_full_boards gFullRun (by decide) (0, 0) (by decide)⟩


/-! ## The cascade loop: invariants, resolution, scoring -/

theorem collectGems_fields (st : GState) (ms : List (Nat × Nat)) :
    (collectGems st ms).grid = st.grid ∧ (collectGems st ms).score = st.score ∧
    (collectGems st ms).movesLeft = st.movesLeft ∧ (collectGems st ms).rng = st.rng ∧
    (collectGems st ms).rngIdx = st.rngIdx := by
  unfold collectGems
  induction ms generalizing st with
  | nil => exact ⟨rfl, rfl, rfl, rfl, rfl⟩
  | cons p ms ih => exact ih _

theorem processMatches_zero (ms : List (Nat × Nat)) (lvl : Nat) (st : GState) :
    processMatches 0 ms lvl st = none := rfl

theorem processMatches_succ_nil (fuel lvl : Nat) (st : GState) :
    processMatches (fuel + 1) [] lvl st = some st := rfl

theorem processMatches_succ_cons (fuel : Nat) (m : Nat × Nat) (tail : List (Nat × Nat))
    (lvl : Nat) (st : GState) :
    processMatches (fuel + 1) (m :: tail) lvl st =
      processMatches fuel (findAllMatches (cascadeStep (m :: tail) lvl st).grid) (lvl + 1)
        (cascadeStep (m :: tail) lvl st) := rfl

theorem cascadeStep_movesLeft (ms : List (Nat × Nat)) (lvl : Nat) (st : GState) :
    (cascadeStep ms lvl st).movesLeft = st.movesLeft := by
  obtain ⟨h1, h2, h3, h4, h5⟩ := collectGems_fields st ms
  simp only [cascadeStep, h3]

theorem cascadeStep_rng (ms : List (Nat × Nat)) (lvl : Nat) (st : GState) :
    (cascadeStep ms lvl st).rng = st.rng := by
  obtain ⟨h1, h2, h3, h4, h5⟩ := collectGems_fields st ms
  simp only [cascadeStep, h4]

theorem cascadeStep_score (ms : List (Nat × Nat)) (lvl : Nat) (st : GState) :
    (cascadeStep ms lvl st).score = st.score + ms.length * POINTS_PER_GEM * (lvl + 1) := by
  obtain ⟨h1, h2, h3, h4, h5⟩ := collectGems_fields st ms
  simp only [cascadeStep, h2]

theorem cascadeStep_grid (ms : List (Nat × Nat)) (lvl : Nat) (st : GState) :
    (cascadeStep ms lvl st).grid =
      (fillEmptySpaces (applyGravity (removeMatches st.grid ms)) st.rng st.rngIdx).1 := by
  obtain ⟨h1, h2, h3, h4, h5⟩ := collectGems_fields st ms
  simp only [cascadeStep, h1, h4, h5]

theorem processMatches_nil :
    ∀ fuel lvl st st', processMatches fuel [] lvl st = some st' → st' = st := by
  intro fuel lvl st st' h
  cases fuel with
  | zero =>
    rw [processMatches_zero] at h
    exact absurd h (by simp)
  | succ fuel =>
    rw [processMatches_succ_nil] at h
    exact (Option.some_injective _ h).symm

theorem processMatches_invariants :
    ∀ fuel ms lvl st st', processMatches fuel ms lvl st = some st' →
      st'.movesLeft = st.movesLeft ∧ st'.rng = st.rng ∧ (WF st.grid → WF st'.grid) := by
  intro fuel
  induction fuel with
  | zero =>
    intro ms lvl st st' h
    rw [processMatches_zero] at h
    exact absurd h (by simp)
  | succ fuel ih =>
    intro ms lvl st st' h
    cases ms with
    | nil =>
      rw [processMatches_nil _ _ _ _ h]
      exact ⟨rfl, rfl, id⟩
    | cons m tail =>
      rw [processMatches_succ_cons] at h
      have hih := ih _ _ _ _ h
      refine ⟨?_, ?_, ?_⟩
      · rw [hih.1, cascadeStep_movesLeft]
      · rw [hih.2.1, cascadeStep_rng]
      · intro hW
        apply hih.2.2
        rw [cascadeStep_grid]
        exact WF_fillEmptySpaces (WF_applyGravity (WF_removeMatches hW _)) _ _

theorem processMatches_resolved :
    ∀ fuel ms lvl st st', WF st.grid → ms ≠ [] →
      processMatches fuel ms lvl st = some st' →
      (∀ r, r < ROWS → ∀ c, c < COLS → getCell st'.grid r c ≠ -1) ∧
      findAllMatches st'.grid = [] := by
  intro fuel
  induction fuel with
  | zero =>
    intro ms lvl st st' _ _ h
    rw [processMatches_zero] at h
    exact absurd h (by simp)
  | succ fuel ih =>
    intro ms lvl st st' hW hne h
    cases ms with
    | nil => exact absurd rfl hne
    | cons m tail =>
      rw [processMatches_succ_cons] at h
      have hWstep : WF (cascadeStep (m :: tail) lvl st).grid := by
        rw [cascadeStep_grid]
        exact WF_fillEmptySpaces (WF_applyGravity (WF_removeMatches hW _)) _ _
      have hnofill : ∀ r, r < ROWS → ∀ c, c < COLS →
          getCell (cascadeStep (m :: tail) lvl st).grid r c ≠ -1 := by
        intro r hr c hc
        rw [cascadeStep_grid]
        exact fillEmptySpaces_noEmpty (WF_applyGravity (WF_removeMatches hW _)) _ _ hr hc
      rcases Decidable.em (findAllMatches (cascadeStep (m :: tail) lvl st).grid = [])
        with hfin | hfin
      · rw [hfin] at h
        rw [processMatches_nil _ _ _ _ h]
        exact ⟨hnofill, hfin⟩
      · exact ih _ _ _ _ hWstep hfin h

/-- The cascade-scaled score total: term `i` of the list contributes
`sizes[i] * POINTS_PER_GEM * (k + i)`. -/
def wsum : List Nat → Nat → Nat
  | [], _ => 0
  | a :: l, k => a * POINTS_PER_GEM * k + wsum l (k + 1)

theorem processMatches_score :
    ∀ fuel ms lvl st st', processMatches fuel ms lvl st = some st' →
      ∃ sizes : List Nat,
        st'.score = st.score + wsum sizes (lvl + 1) ∧
        (ms = [] → sizes = []) ∧
        (ms ≠ [] → sizes.head? = some ms.length) := by
  intro fuel
  induction fuel with
  | zero =>
    intro ms lvl st st' h
    rw [processMatches_zero] at h
    exact absurd h (by simp)
  | succ fuel ih =>
    intro ms lvl st st' h
    cases ms with
    | nil =>
      rw [processMatches_nil _ _ _ _ h]
      exact ⟨[], by simp [wsum], fun _ => rfl, fun hne => absurd rfl hne⟩
    | cons m tail =>
      rw [processMatches_succ_cons] at h
      obtain ⟨sizes, hs1, hs2, hs3⟩ := ih _ _ _ _ h
      refine ⟨(m :: tail).length :: sizes, ?_, fun hcon => absurd hcon (by simp),
        fun _ => rfl⟩
      rw [hs1, cascadeStep_score]
      show _ = st.score + ((m :: tail).length * POINTS_PER_GEM * (lvl + 1) +
        wsum sizes (lvl + 1 + 1))
      omega

theorem processMatches_score_mono :
    ∀ fuel ms lvl st st', processMatches fuel ms lvl st = some st' →
      st.score ≤ st'.score := by
  intro fuel ms lvl st st' h
  obtain ⟨sizes, hs1, -, -⟩ := processMatches_score fuel ms lvl st st' h
  omega


/-! ## Move oracle: scan order, restoration, equivalence -/

/-- Whether tentatively swapping the pair produces a match (the test both
oracle functions apply to each candidate). -/
def swapMakesMatch (g : Grid) (q : Nat × Nat × Nat × Nat) : Bool :=
  !(findAllMatches (swapCells g q.1 q.2.1 q.2.2.1 q.2.2.2)).isEmpty

/-- Spec-side description of the oracle scan (from the specification's
words, for the refinement claim C8): all candidate pairs in row-major
order, the right-neighbor pair before the bottom-neighbor pair at each
cell, filtered to those whose tentative swap produces a match. -/
def candOver (cells : List (Nat × Nat)) (g : Grid) : List (Nat × Nat × Nat × Nat) :=
  (cells.flatMap fun p =>
    (if p.2 < COLS - 1 then [(p.1, p.2, p.1, p.2 + 1)] else []) ++
    (if p.1 < ROWS - 1 then [(p.1, p.2, p.1 + 1, p.2)] else [])).filter (swapMakesMatch g)

/-- The full-board candidate list of the specification. -/
def candidateMoves (g : Grid) : List (Nat × Nat × Nat × Nat) :=
  candOver rowMajorCells g

theorem mem_rowMajorCells {p : Nat × Nat} (h : p ∈ rowMajorCells) :
    p.1 < ROWS ∧ p.2 < COLS := by
  unfold rowMajorCells at h
  rw [List.mem_flatMap] at h
  obtain ⟨row, hrow, hp⟩ := h
  rw [List.mem_map] at hp
  obtain ⟨col, hcol, he⟩ := hp
  rw [← he]
  exact ⟨List.mem_range.1 hrow, List.mem_range.1 hcol⟩

theorem candOver_cons (p : Nat × Nat) (rest : List (Nat × Nat)) (g : Grid) :
    candOver (p :: rest) g =
      ((if p.2 < COLS - 1 then [(p.1, p.2, p.1, p.2 + 1)] else []) ++
        (if p.1 < ROWS - 1 then [(p.1, p.2, p.1 + 1, p.2)] else [])).filter
          (swapMakesMatch g) ++ candOver rest g := by
  unfold candOver
  rw [List.flatMap_cons, List.filter_append]

theorem oracleAux_eq :
    ∀ (cells : List (Nat × Nat)) (g : Grid), WF g →
      (∀ p ∈ cells, p.1 < ROWS ∧ p.2 < COLS) →
      findValidMoveAux cells g = ((candOver cells g).head?, g) ∧
      hasValidMovesAux cells g = (!(candOver cells g).isEmpty, g) := by
  intro cells
  induction cells with
  | nil =>
    intro g _ _
    constructor
    · simp [findValidMoveAux, candOver]
    · simp [hasValidMovesAux, candOver]
  | cons p rest ih =>
    intro g hW hmem
    obtain ⟨row, col⟩ := p
    obtain ⟨hr, hc⟩ := hmem (row, col) (by simp)
    have hrest : ∀ q ∈ rest, q.1 < ROWS ∧ q.2 < COLS :=
      fun q hq => hmem q (by simp [hq])
    rw [candOver_cons]
    by_cases hcl : col < COLS - 1
    · have hc1 : col + 1 < COLS := by
        revert hcl
        unfold COLS
        omega
      have hinv1 := swapCells_involutive hW hr hc hr hc1
      by_cases hm1 : swapMakesMatch g (row, col, row, col + 1) = true
      · -- right-neighbor candidate fires
        have hm1' : (!(findAllMatches (swapCells g row col row (col + 1))).isEmpty) = true := hm1
        constructor
        · simp only [findValidMoveAux, if_pos hcl, hinv1, hm1', if_pos rfl]
          simp [if_pos hcl, List.filter_append, List.filter_cons, hm1]
        · simp only [hasValidMovesAux, if_pos hcl, hinv1, hm1', if_pos rfl]
          simp [if_pos hcl, List.filter_append, List.filter_cons, hm1]
      · have hm1' : (!(findAllMatches (swapCells g row col row (col + 1))).isEmpty) = false := by
          rw [Bool.eq_false_iff]
          exact hm1
        by_cases hrl : row < ROWS - 1
        · have hr1 : row + 1 < ROWS := by
            revert hrl
            unfold ROWS
            omega
          have hinv2 := swapCells_involutive hW hr hc hr1 hc
          by_cases hm2 : swapMakesMatch g (row, col, row + 1, col) = true
          · have hm2' : (!(findAllMatches (swapCells g row col (row + 1) col)).isEmpty) = true := hm2
            constructor
            · simp only [findValidMoveAux, if_pos hcl, hinv1, hm1', Bool.false_eq_true,
                if_false, if_pos hrl, hinv2, hm2', if_pos rfl]
              simp [if_pos hcl, if_pos hrl, List.filter_append, List.filter_cons, hm2,
                show swapMakesMatch g (row, col, row, col + 1) = false from hm1']
            · simp only [hasValidMovesAux, if_pos hcl, hinv1, hm1', Bool.false_eq_true,
                if_false, if_pos hrl, hinv2, hm2', if_pos rfl]
              simp [if_pos hcl, if_pos hrl, List.filter_append, List.filter_cons, hm2,
                show swapMakesMatch g (row, col, row, col + 1) = false from hm1']
          · have hm2' : (!(findAllMatches (swapCells g row col (row + 1) col)).isEmpty) = false := by
              rw [Bool.eq_false_iff]
              exact hm2
            obtain ⟨ihf, ihh⟩ := ih g hW hrest
            constructor
            · simp only [findValidMoveAux, if_pos hcl, hinv1, hm1', Bool.false_eq_true,
                if_false, if_pos hrl, hinv2, hm2', ihf]
              simp [if_pos hcl, if_pos hrl, List.filter_append, List.filter_cons,
                show swapMakesMatch g (row, col, row, col + 1) = false from hm1',
                show swapMakesMatch g (row, col, row + 1, col) = false from hm2']
            · simp only [hasValidMovesAux, if_pos hcl, hinv1, hm1', Bool.false_eq_true,
                if_false, if_pos hrl, hinv2, hm2', ihh]
              simp [if_pos hcl, if_pos hrl, List.filter_append, List.filter_cons,
                show swapMakesMatch g (row, col, row, col + 1) = false from hm1',
                show swapMakesMatch g (row, col, row + 1, col) = false from hm2']
        · obtain ⟨ihf, ihh⟩ := ih g hW hrest
          constructor
          · simp only [findValidMoveAux, if_pos hcl, hinv1, hm1', Bool.false_eq_true,
              if_false, if_neg hrl, ihf]
            simp [if_pos hcl, if_neg hrl, List.filter_append, List.filter_cons,
              show swapMakesMatch g (row, col, row, col + 1) = false from hm1']
          · simp only [hasValidMovesAux, if_pos hcl, hinv1, hm1', Bool.false_eq_true,
              if_false, if_neg hrl, ihh]
            simp [if_pos hcl, if_neg hrl, List.filter_append, List.filter_cons,
              show swapMakesMatch g (row, col, row, col + 1) = false from hm1']
    · by_cases hrl : row < ROWS - 1
      · have hr1 : row + 1 < ROWS := by
          revert hrl
          unfold ROWS
          omega
        have hinv2 := swapCells_involutive hW hr hc hr1 hc
        by_cases hm2 : swapMakesMatch g (row, col, row + 1, col) = true
        · have hm2' : (!(findAllMatches (swapCells g row col (row + 1) col)).isEmpty) = true := hm2
          constructor
          · simp only [findValidMoveAux, if_neg hcl, Bool.false_eq_true, if_false,
              if_pos hrl, hinv2, hm2', if_pos rfl]
            simp [if_neg hcl, if_pos hrl, List.filter_append, List.filter_cons, hm2]
          · simp only [hasValidMovesAux, if_neg hcl, Bool.false_eq_true, if_false,
              if_pos hrl, hinv2, hm2', if_pos rfl]
            simp [if_neg hcl, if_pos hrl, List.filter_append, List.filter_cons, hm2]
        · have hm2' : (!(findAllMatches (swapCells g row col (row + 1) col)).isEmpty) = false := by
            rw [Bool.eq_false_iff]
            exact hm2
          obtain ⟨ihf, ihh⟩ := ih g hW hrest
          constructor
          · simp only [findValidMoveAux, if_neg hcl, Bool.false_eq_true, if_false,
              if_pos hrl, hinv2, hm2', ihf]
            simp [if_neg hcl, if_pos hrl, List.filter_append, List.filter_cons,
              show swapMakesMatch g (row, col, row + 1, col) = false from hm2']
          · simp only [hasValidMovesAux, if_neg hcl, Bool.false_eq_true, if_false,
              if_pos hrl, hinv2, hm2', ihh]
            simp [if_neg hcl, if_pos hrl, List.filter_append, List.filter_cons,
              show swapMakesMatch g (row, col, row + 1, col) = false from hm2']
      · obtain ⟨ihf, ihh⟩ := ih g hW hrest
        constructor
        · simp only [findValidMoveAux, if_neg hcl, Bool.false_eq_true, if_false,
            if_neg hrl, ihf]
          simp [if_neg hcl, if_neg hrl]
        · simp only [hasValidMovesAux, if_neg hcl, Bool.false_eq_true, if_false,
            if_neg hrl, ihh]
          simp [if_neg hcl, if_neg hrl]


/-- C8: `hasValidMoves` answers true exactly when `findValidMove` finds a
pair; `findValidMove` returns the first match-producing pair in row-major
order with each cell's right-neighbor swap tested before its
bottom-neighbor swap; both functions hand the grid back exactly as they
found it (every tentative swap is reverted). -/
theorem C8_oracle_equivalence :
    ∀ (g : Grid), WF g →
      (((hasValidMoves g).1 = true) ↔ (findValidMove g).1 ≠ none) ∧
      (hasValidMoves g).2 = g ∧
      (findValidMove g).2 = g ∧
      (findValidMove g).1 = (candidateMoves g).head? := by
  intro g hW
  have h := oracleAux_eq rowMajorCells g hW (fun p hp => mem_rowMajorCells hp)
  unfold hasValidMoves findValidMove candidateMoves
  rw [h.1, h.2]
  refine ⟨?_, rfl, rfl, rfl⟩
  cases candOver rowMajorCells g <;> simp

/-- A board on which no swap produces a match (2×2 tiling by 4 kinds):
every row alternates two kinds, every column alternates two kinds, and no
single swap can line up three equal cells. -/
def gDead : Grid :=
  (List.range 8).map fun r => (List.range 8).map fun c => (2 * (r % 2) + c % 2 : Int)

/-- Witness for C8: the oracle equivalence evaluated on the deadlocked
board `gDead` (no valid move) and on the full board `gFullRun`. -/
theorem C8_witness :
    (((hasValidMoves gDead).1 = true) ↔ (findValidMove gDead).1 ≠ none) ∧
    (hasValidMoves gDead).2 = gDead ∧
    (findValidMove gDead).1 = (candidateMoves gDead).head? :=
  ⟨(C8_oracle_equivalence gDead (by decide)).1,
   (C8_oracle_equivalence gDead (by decide)).2.1,
   (C8_oracle_equivalence gDead (by decide)).2.2.2⟩

theorem shuffleBoard_zero (st : GState) : shuffleBoard 0 st = none := rfl

theorem shuffleBoard_succ (fuel : Nat) (st : GState) :
    shuffleBoard (fuel + 1) st =
      (let fy := fisherYates st.grid st.rng st.rngIdx
       let st1 : GState := { st with grid := fy.1, rngIdx := fy.2 }
       if (hasValidMoves st1.grid).1 then some st1 else shuffleBoard fuel st1) := rfl

theorem shuffleBoard_invariants :
    ∀ fuel st st', shuffleBoard fuel st = some st' →
      st'.score = st.score ∧ st'.movesLeft = st.movesLeft ∧
      st'.gemsCollected = st.gemsCollected ∧
      st'.totalGemsCollected = st.totalGemsCollected ∧ st'.rng = st.rng := by
  intro fuel
  induction fuel with
  | zero =>
    intro st st' h
    rw [shuffleBoard_zero] at h
    exact absurd h (by simp)
  | succ fuel ih =>
    intro st st' h
    rw [shuffleBoard_succ] at h
    dsimp only at h
    split at h
    · rw [← Option.some_injective _ h]
      exact ⟨rfl, rfl, rfl, rfl, rfl⟩
    · obtain ⟨i1, i2, i3, i4, i5⟩ := ih _ _ h
      exact ⟨i1, i2, i3, i4, i5⟩

theorem endOfSwapShuffle_invariants :
    ∀ fuel st st', endOfSwapShuffle fuel st = some st' →
      st'.score = st.score ∧ st'.movesLeft = st.movesLeft ∧
      st'.gemsCollected = st.gemsCollected ∧
      st'.totalGemsCollected = st.totalGemsCollected ∧ st'.rng = st.rng := by
  intro fuel st st' h
  unfold endOfSwapShuffle at h
  split at h
  · rw [← Option.some_injective _ h]
    exact ⟨rfl, rfl, rfl, rfl, rfl⟩
  · exact shuffleBoard_invariants fuel st st' h

theorem endOfSwapShuffle_valid (fuel : Nat) (st : GState)
    (h : (hasValidMoves st.grid).1 = true) :
    endOfSwapShuffle fuel st = some st := by
  unfold endOfSwapShuffle
  rw [if_pos h]


/-! ## trySwap: move conservation and score monotonicity -/

theorem trySwap_eq (fuel : Nat) (st : GState) (r1 c1 r2 c2 : Nat) :
    trySwap fuel st r1 c1 r2 c2 =
      (let g1 := swapCells st.grid r1 c1 r2 c2
       let ms := findAllMatches g1
       if ms.isEmpty then
         endOfSwapShuffle fuel { st with grid := swapCells g1 r1 c1 r2 c2 }
       else
         match processMatches fuel ms 0
             { st with grid := g1, movesLeft := st.movesLeft - 1 } with
         | none => none
         | some st2 => endOfSwapShuffle fuel st2) := rfl

/-- C1 (amended): a rejected swap (empty post-swap match set) leaves
score, moves and the collection counters unchanged, and — provided the
restored board still has a valid move, which the engine guarantees —
returns the state exactly as it was; an accepted swap consumes exactly
one move no matter how many cascade steps follow. -/
theorem C1_move_conservation :
    ∀ (fuel : Nat) (st : GState) (r1 c1 r2 c2 : Nat),
      (findAllMatches (swapCells st.grid r1 c1 r2 c2) = [] →
        (∀ st', trySwap fuel st r1 c1 r2 c2 = some st' →
          st'.score = st.score ∧ st'.movesLeft = st.movesLeft ∧
          st'.gemsCollected = st.gemsCollected ∧
          st'.totalGemsCollected = st.totalGemsCollected) ∧
        (WF st.grid → r1 < ROWS → c1 < COLS → r2 < ROWS → c2 < COLS →
          (hasValidMoves st.grid).1 = true →
          trySwap fuel st r1 c1 r2 c2 = some st)) ∧
      (findAllMatches (swapCells st.grid r1 c1 r2 c2) ≠ [] →
        ∀ st', trySwap fuel st r1 c1 r2 c2 = some st' →
          st'.movesLeft = st.movesLeft - 1) := by
  intro fuel st r1 c1 r2 c2
  constructor
  · intro hms
    have hempty : (findAllMatches (swapCells st.grid r1 c1 r2 c2)).isEmpty = true := by
      rw [hms]
      rfl
    constructor
    · intro st' h
      rw [trySwap_eq] at h
      dsimp only at h
      rw [if_pos hempty] at h
      obtain ⟨i1, i2, i3, i4, i5⟩ := endOfSwapShuffle_invariants fuel _ _ h
      exact ⟨i1, i2, i3, i4⟩
    · intro hW h1 h2 h3 h4 hvm
      rw [trySwap_eq]
      dsimp only
      rw [if_pos hempty, swapCells_involutive hW h1 h2 h3 h4]
      exact endOfSwapShuffle_valid fuel st hvm
  · intro hms st' h
    have hempty : (findAllMatches (swapCells st.grid r1 c1 r2 c2)).isEmpty = false := by
      rcases he : findAllMatches (swapCells st.grid r1 c1 r2 c2) with _ | _
      · exact absurd he hms
      · rfl
    rw [trySwap_eq] at h
    dsimp only at h
    rw [if_neg (by rw [hempty]; simp)] at h
    rcases hp : processMatches fuel (findAllMatches (swapCells st.grid r1 c1 r2 c2)) 0
        { st with grid := swapCells st.grid r1 c1 r2 c2, movesLeft := st.movesLeft - 1 }
      with _ | st2
    · rw [hp] at h
      exact absurd h (by simp)
    · rw [hp] at h
      have e1 := (endOfSwapShuffle_invariants fuel _ _ h).2.1
      have e2 := (processMatches_invariants fuel _ _ _ _ hp).1
      rw [e1, e2]

/-- C3: each cascade iteration adds exactly
`matchCount × POINTS_PER_GEM × cascadeIndex` with the index starting at 1
and stepping by 1 — stated both as the one-step unfolding of the loop and
as the summed `wsum` trace — and the score never decreases, neither
across a cascade run nor across a whole `trySwap`. -/
theorem C3_cascade_scoring :
    (∀ fuel ms lvl (st : GState), ms ≠ [] →
      processMatches (fuel + 1) ms lvl st =
        processMatches fuel (findAllMatches (cascadeStep ms lvl st).grid) (lvl + 1)
          (cascadeStep ms lvl st) ∧
      (cascadeStep ms lvl st).score =
        st.score + ms.length * POINTS_PER_GEM * (lvl + 1)) ∧
    (∀ fuel ms st st', processMatches fuel ms 0 st = some st' →
      ∃ sizes : List Nat,
        st'.score = st.score + wsum sizes 1 ∧
        (ms = [] → sizes = []) ∧
        (ms ≠ [] → sizes.head? = some ms.length)) ∧
    (∀ fuel ms lvl st st', processMatches fuel ms lvl st = some st' →
      st.score ≤ st'.score) ∧
    (∀ fuel st r1 c1 r2 c2 st', trySwap fuel st r1 c1 r2 c2 = some st' →
      st.score ≤ st'.score) := by
  refine ⟨?_, ?_, ?_, ?_⟩
  · intro fuel ms lvl st hne
    cases ms with
    | nil => exact absurd rfl hne
    | cons m tail =>
      exact ⟨processMatches_succ_cons fuel m tail lvl st, cascadeStep_score _ _ _⟩
  · intro fuel ms st st' h
    exact processMatches_score fuel ms 0 st st' h
  · intro fuel ms lvl st st' h
    exact processMatches_score_mono fuel ms lvl st st' h
  · intro fuel st r1 c1 r2 c2 st' h
    rw [trySwap_eq] at h
    dsimp only at h
    rcases Decidable.em ((findAllMatches (swapCells st.grid r1 c1 r2 c2)).isEmpty = true)
      with he | he
    · rw [if_pos he] at h
      rw [(endOfSwapShuffle_invariants fuel _ _ h).1]
    · rw [if_neg he] at h
      rcases hp : processMatches fuel (findAllMatches (swapCells st.grid r1 c1 r2 c2)) 0
          { st with grid := swapCells st.grid r1 c1 r2 c2, movesLeft := st.movesLeft - 1 }
        with _ | st2
      · rw [hp] at h
        exact absurd h (by simp)
      · rw [hp] at h
        rw [(endOfSwapShuffle_invariants fuel _ _ h).1]
        have hm := processMatches_score_mono fuel _ _ _ _ hp
        exact hm


/-! ## Claim C2 and concrete cascade witnesses -/

/-- C2: a cascade run entered with a non-empty match set that terminates
leaves a board with no Empty cell, on which the detector finds nothing —
no run of three or more equal kinds remains along any row or column. -/
theorem C2_resolution_invariant :
    ∀ fuel ms lvl st st', WF st.grid → ms ≠ [] →
      processMatches fuel ms lvl st = some st' →
      (∀ r, r < ROWS → ∀ c, c < COLS → getCell st'.grid r c ≠ -1) ∧
      findAllMatches st'.grid = [] ∧
      (∀ row, row < ROWS → ∀ c, c < COLS - 2 → ¬ hTriple st'.grid row c) ∧
      (∀ col, col < COLS → ∀ r, r < ROWS - 2 → ¬ vTriple st'.grid r col) := by
  intro fuel ms lvl st st' hW hne h
  obtain ⟨h1, h2⟩ := processMatches_resolved fuel ms lvl st st' hW hne h
  obtain ⟨h3, h4⟩ := findAllMatches_nil_noTriple h2
  exact ⟨h1, h2, h3, h4⟩

/-- A board on which swapping `(0,0)` and `(0,1)` lines up three 5s in
column 0 (and makes no other run): the accepted-swap scenario. -/
def gAcc : Grid :=
  [[0, 5, 2, 0, 1, 2, 0, 1],
   [5, 2, 0, 1, 2, 0, 1, 2],
   [5, 0, 1, 2, 0, 1, 2, 0],
   [0, 1, 2, 0, 1, 2, 0, 1],
   [1, 2, 0, 1, 2, 0, 1, 2],
   [2, 0, 1, 2, 0, 1, 2, 0],
   [0, 1, 2, 0, 1, 2, 0, 1],
   [1, 2, 0, 1, 2, 0, 1, 2]]

/-- Run state on `gAcc` with 10 moves left and the identity entropy
stream. -/
def stAcc : GState where
  grid := gAcc
  score := 0
  movesLeft := 10
  gemsCollected := fun _ => 0
  totalGemsCollected := 0
  rng := fun i => i
  rngIdx := 0

/-- `stAcc` after the accepted swap `(0,0)`/`(0,1)` has been performed and
the move consumed, about to enter the cascade loop. -/
def stSwap : GState :=
  { stAcc with grid := swapCells gAcc 0 0 0 1, movesLeft := 9 }

set_option maxRecDepth 8000 in
/-- Witness for C2: the concrete cascade run on `stSwap` terminates with
fuel 2 and the theorem applies to it. -/
theorem C2_witness :
    (processMatches 2 (findAllMatches (swapCells gAcc 0 0 0 1)) 0 stSwap).isSome = true ∧
    (processMatches 2 (findAllMatches (swapCells gAcc 0 0 0 1)) 0 stSwap).map
      (fun s => findAllMatches s.grid) = some [] := by
  refine ⟨by decide, ?_⟩
  rcases he : processMatches 2 (findAllMatches (swapCells gAcc 0 0 0 1)) 0 stSwap
    with _ | st'
  · have hs : (processMatches 2 (findAllMatches (swapCells gAcc 0 0 0 1)) 0
        stSwap).isSome = true := by decide
    rw [he] at hs
    exact absurd hs (by simp)
  · have hc := (C2_resolution_invariant 2 _ 0 stSwap st' (by decide) (by decide) he).2.1
    simp [hc]

set_option maxRecDepth 8000 in
/-- Witness for C3: on the same concrete cascade run the score is
monotone, via the theorem. -/
theorem C3_witness :
    stSwap.score ≤
      ((processMatches 2 (findAllMatches (swapCells gAcc 0 0 0 1)) 0 stSwap).map
        GState.score).getD 0 := by
  rcases he : processMatches 2 (findAllMatches (swapCells gAcc 0 0 0 1)) 0 stSwap
    with _ | st'
  · have hs : (processMatches 2 (findAllMatches (swapCells gAcc 0 0 0 1)) 0
        stSwap).isSome = true := by decide
    rw [he] at hs
    exact absurd hs (by simp)
  · have hm := C3_cascade_scoring.2.2.1 2 _ 0 stSwap st' he
    simpa using hm

/-- A board with scattered Empty cells for the gravity witness. -/
def gGrav : Grid :=
  [[0, 1, 2, -1, 1, 2, 0, 1],
   [1, -1, 0, 4, 2, 0, 1, 2],
   [2, 0, 1, -1, 0, 1, 2, 0],
   [0, 1, 2, 5, 1, 2, 0, 1],
   [1, 2, 0, -1, 2, 0, 1, 2],
   [2, 0, 1, 3, 0, 1, 2, 0],
   [0, 1, 2, -1, 1, 2, 0, 1],
   [1, 2, 0, 2, 2, 0, 1, 2]]

/-- Witness for C7: gravity on column 3 of `gGrav` (four Empty cells),
via the theorem. -/
theorem C7_witness :
    colList (applyGravity gGrav) 3 =
      List.replicate (8 - ((colList gGrav 3).filter (fun v => v ≠ -1)).length) (-1) ++
        (colList gGrav 3).filter (fun v => v ≠ -1) ∧
    (colList (applyGravity gGrav) 3).Perm (colList gGrav 3) :=
  ⟨(C7_applyGravity_column_compaction gGrav (by decide) 3 (by decide)).1,
   (C7_applyGravity_column_compaction gGrav (by decide) 3 (by decide)).2.1⟩


/-! ## The move budget is never a precondition (claim C10) -/

theorem cascadeStep_gems (ms : List (Nat × Nat)) (lvl : Nat) (st : GState) :
    (cascadeStep ms lvl st).gemsCollected = (collectGems st ms).gemsCollected := by
  simp only [cascadeStep]

theorem cascadeStep_total (ms : List (Nat × Nat)) (lvl : Nat) (st : GState) :
    (cascadeStep ms lvl st).totalGemsCollected =
      (collectGems st ms).totalGemsCollected := by
  simp only [cascadeStep]

theorem cascadeStep_rngIdx (ms : List (Nat × Nat)) (lvl : Nat) (st : GState) :
    (cascadeStep ms lvl st).rngIdx =
      (fillEmptySpaces (applyGravity (removeMatches st.grid ms)) st.rng st.rngIdx).2 := by
  obtain ⟨h1, h2, h3, h4, h5⟩ := collectGems_fields st ms
  simp only [cascadeStep, h1, h4, h5]

theorem collectOne_nat (st : GState) (m : Int) (p : Nat × Nat) :
    collectOne { st with movesLeft := m } p = { collectOne st p with movesLeft := m } := rfl

theorem collectGems_nat :
    ∀ (ms : List (Nat × Nat)) (st : GState) (m : Int),
      collectGems { st with movesLeft := m } ms =
        { collectGems st ms with movesLeft := m } := by
  intro ms
  induction ms with
  | nil => intro st m; rfl
  | cons p ms ih =>
    intro st m
    show collectGems (collectOne { st with movesLeft := m } p) ms = _
    rw [collectOne_nat]
    exact ih (collectOne st p) m

theorem cascadeStep_nat (ms : List (Nat × Nat)) (lvl : Nat) (st : GState) (m : Int) :
    cascadeStep ms lvl { st with movesLeft := m } =
      { cascadeStep ms lvl st with movesLeft := m } := by
  dsimp only
  ext1
  · rw [cascadeStep_grid, cascadeStep_grid]
  · rw [cascadeStep_score, cascadeStep_score]
  · rw [cascadeStep_movesLeft]
  · rw [cascadeStep_gems, cascadeStep_gems, collectGems_nat]
  · rw [cascadeStep_total, cascadeStep_total, collectGems_nat]
  · rw [cascadeStep_rng, cascadeStep_rng]
  · rw [cascadeStep_rngIdx, cascadeStep_rngIdx]


theorem processMatches_nat :
    ∀ fuel (ms : List (Nat × Nat)) (lvl : Nat) (st : GState) (m : Int),
      processMatches fuel ms lvl { st with movesLeft := m } =
        (processMatches fuel ms lvl st).map fun s => { s with movesLeft := m } := by
  intro fuel
  induction fuel with
  | zero => intro ms lvl st m; rw [processMatches_zero, processMatches_zero]; rfl
  | succ fuel ih =>
    intro ms lvl st m
    cases ms with
    | nil => rw [processMatches_succ_nil, processMatches_succ_nil]; rfl
    | cons mh tail =>
      have hcs := cascadeStep_nat (mh :: tail) lvl st m
      rw [processMatches_succ_cons, processMatches_succ_cons, hcs]
      dsimp only
      exact ih (findAllMatches (cascadeStep (mh :: tail) lvl st).grid) (lvl + 1)
        (cascadeStep (mh :: tail) lvl st) m

theorem shuffleBoard_nat :
    ∀ fuel (st : GState) (m : Int),
      shuffleBoard fuel { st with movesLeft := m } =
        (shuffleBoard fuel st).map fun s => { s with movesLeft := m } := by
  intro fuel
  induction fuel with
  | zero => intro st m; rw [shuffleBoard_zero, shuffleBoard_zero]; rfl
  | succ fuel ih =>
    intro st m
    rw [shuffleBoard_succ, shuffleBoard_succ]
    dsimp only
    rcases Decidable.em ((hasValidMoves (fisherYates st.grid st.rng st.rngIdx).1).1 = true)
      with hv | hv
    · rw [if_pos hv, if_pos hv]
      rfl
    · rw [if_neg hv, if_neg hv]
      have := ih { st with grid := (fisherYates st.grid st.rng st.rngIdx).1, rngIdx := (fisherYates st.grid st.rng st.rngIdx).2 } m
      exact this

theorem endOfSwapShuffle_nat (fuel : Nat) (st : GState) (m : Int) :
    endOfSwapShuffle fuel { st with movesLeft := m } =
      (endOfSwapShuffle fuel st).map fun s => { s with movesLeft := m } := by
  unfold endOfSwapShuffle
  rcases Decidable.em ((hasValidMoves st.grid).1 = true) with hv | hv
  · rw [if_pos hv, if_pos hv]
    rfl
  · rw [if_neg hv, if_neg hv]
    exact shuffleBoard_nat fuel st m


/-- C10: `trySwap` never reads the remaining move budget — the whole
transition commutes with overriding `movesLeft`, which only receives the
post-hoc decrement on the accepted path — so an adjacent match-producing
swap made with `movesLeft = 0` is still processed in full and leaves
`movesLeft = -1`; only `checkLevelEnd` reacts to `movesLeft ≤ 0` after
the fact. -/
theorem C10_no_move_budget_precondition :
    (∀ (fuel : Nat) (st : GState) (m : Int) (r1 c1 r2 c2 : Nat),
      trySwap fuel { st with movesLeft := m } r1 c1 r2 c2 =
        (trySwap fuel st r1 c1 r2 c2).map fun s =>
          { s with movesLeft :=
              if (findAllMatches (swapCells st.grid r1 c1 r2 c2)).isEmpty then m
              else m - 1 }) ∧
    (∀ (fuel : Nat) (st : GState) (r1 c1 r2 c2 : Nat) (st' : GState),
      st.movesLeft = 0 →
      findAllMatches (swapCells st.grid r1 c1 r2 c2) ≠ [] →
      trySwap fuel st r1 c1 r2 c2 = some st' →
      st'.movesLeft = -1) := by
  constructor
  · intro fuel st m r1 c1 r2 c2
    rw [trySwap_eq, trySwap_eq]
    dsimp only
    rcases he : (findAllMatches (swapCells st.grid r1 c1 r2 c2)).isEmpty with _ | _
    · rw [if_neg (by simp), if_neg (by simp), if_neg (by simp)]
      have hn := processMatches_nat fuel (findAllMatches (swapCells st.grid r1 c1 r2 c2)) 0
        { st with grid := swapCells st.grid r1 c1 r2 c2, movesLeft := st.movesLeft - 1 }
        (m - 1)
      dsimp only at hn
      rcases hp : processMatches fuel (findAllMatches (swapCells st.grid r1 c1 r2 c2)) 0
          { st with grid := swapCells st.grid r1 c1 r2 c2, movesLeft := st.movesLeft - 1 }
        with _ | st2
      · rw [hp] at hn
        rw [hn]
        rfl
      · rw [hp] at hn
        rw [hn]
        show endOfSwapShuffle fuel { st2 with movesLeft := m - 1 } =
          (endOfSwapShuffle fuel st2).map fun s => { s with movesLeft := m - 1 }
        exact endOfSwapShuffle_nat fuel st2 (m - 1)
    · rw [if_pos rfl, if_pos rfl, if_pos rfl]
      have hes := endOfSwapShuffle_nat fuel
        { st with grid := swapCells (swapCells st.grid r1 c1 r2 c2) r1 c1 r2 c2 } m
      dsimp only at hes
      exact hes
  · intro fuel st r1 c1 r2 c2 st' hml hne h
    have := (C1_move_conservation fuel st r1 c1 r2 c2).2 hne st' h
    rw [this, hml]
    rfl


/-! ## Level evaluation, stars, click dispatch (claims C4, C5, C9) -/

/-- The goals object with no clause at all. -/
def noGoals : Goals := ⟨none, none, none, none, none⟩

/-- C4 (amended): goal satisfaction is the conjunction of the present
clauses, a level with no clauses is trivially satisfied, and the outcome
of `checkLevelEnd` is Complete iff the conjunction holds, Failed iff it
does not hold and `movesLeft ≤ 0` (the source checks `<= 0`, not `== 0`),
and InProgress otherwise. -/
theorem C4_goal_evaluation :
    (∀ (goals : Goals) (score : Nat) (col : Int → Nat) (tot : Nat),
      checkAllGoalsComplete goals score col tot = true ↔
        ((∀ t, goals.score = some t → t ≤ score) ∧
         (∀ ty cnt, goals.collectGem = some (ty, cnt) → cnt ≤ col ty) ∧
         (∀ ty cnt, goals.collectGem2 = some (ty, cnt) → cnt ≤ col ty) ∧
         (∀ ty cnt, goals.collectGem3 = some (ty, cnt) → cnt ≤ col ty) ∧
         (∀ t, goals.collectAny = some t → t ≤ tot))) ∧
    (∀ (score : Nat) (col : Int → Nat) (tot : Nat),
      checkAllGoalsComplete noGoals score col tot = true) ∧
    (∀ (goals : Goals) (score : Nat) (col : Int → Nat) (tot : Nat) (ml : Int),
      (checkLevelEnd goals score col tot ml = Outcome.complete ↔
        checkAllGoalsComplete goals score col tot = true) ∧
      (checkLevelEnd goals score col tot ml = Outcome.failed ↔
        checkAllGoalsComplete goals score col tot = false ∧ ml ≤ 0) ∧
      (checkLevelEnd goals score col tot ml = Outcome.inProgress ↔
        checkAllGoalsComplete goals score col tot = false ∧ 0 < ml)) := by
  refine ⟨?_, ?_, ?_⟩
  · intro goals score col tot
    obtain ⟨gs, g1, g2, g3, ga⟩ := goals
    rcases gs with _ | t0 <;> rcases g1 with _ | ⟨ty1, cnt1⟩ <;>
      rcases g2 with _ | ⟨ty2, cnt2⟩ <;> rcases g3 with _ | ⟨ty3, cnt3⟩ <;>
        rcases ga with _ | ta <;>
          simp [checkAllGoalsComplete, Nat.not_lt]
  · intro score col tot
    rfl
  · intro goals score col tot ml
    unfold checkLevelEnd
    rcases hc : checkAllGoalsComplete goals score col tot with _ | _
    · rw [if_neg (by simp)]
      rcases Decidable.em (ml ≤ 0) with hm | hm
      · rw [if_pos hm, if_neg (by simp)]
        refine ⟨by simp, by simp [hm], by simp; omega⟩
      · rw [if_neg hm]
        refine ⟨by simp, by simp [hm], by simp; omega⟩
    · rw [if_pos rfl]
      refine ⟨by simp, by simp, by simp⟩


/-- C4 (as stated, refuted): with the score goal unmet and
`movesLeft = -1` — reachable, since `trySwap` never checks the budget —
`checkLevelEnd` answers Failed although moves-remaining is not 0, against
the claim's "Failed iff ... moves-remaining is 0". -/
theorem C4_counterexample_negative_moves :
    checkLevelEnd ⟨some 100, none, none, none, none⟩ 0 (fun _ => 0) 0 (-1) =
      Outcome.failed ∧ (-1 : Int) ≠ 0 := by
  constructor
  · rfl
  · decide

/-- Witness for C4: the spec's concrete scenario — goal `score ≥ 500`,
completion at score 500 with moves left, failure at 499 with none. -/
theorem C4_witness :
    checkLevelEnd ⟨some 500, none, none, none, none⟩ 500 (fun _ => 0) 0 5 =
      Outcome.complete ∧
    checkLevelEnd ⟨some 500, none, none, none, none⟩ 499 (fun _ => 0) 0 0 =
      Outcome.failed ∧
    checkAllGoalsComplete noGoals 0 (fun _ => 0) 0 = true := by
  refine ⟨?_, ?_, C4_goal_evaluation.2.1 0 (fun _ => 0) 0⟩
  · exact (C4_goal_evaluation.2.2 ⟨some 500, none, none, none, none⟩ 500
      (fun _ => 0) 0 5).1.mpr (by decide)
  · exact ((C4_goal_evaluation.2.2 ⟨some 500, none, none, none, none⟩ 499
      (fun _ => 0) 0 0).2.1).mpr (by decide)

/-- C5: the star count is the claim's threshold chain, and the stored
progress record is a monotonic ratchet — each stored value only ever
replaced by a strictly greater one — including the concrete
1500-then-1200 scenario keeping 2 stars. -/
theorem C5_star_rating_ratchet :
    (∀ score t0 t1 t2 : Nat,
      calculateStars score [t0, t1, t2] =
        (if t2 ≤ score then 3 else if t1 ≤ score then 2
         else if t0 ≤ score then 1 else 0)) ∧
    (∀ (ex : Option ProgressRec) (stars score : Nat),
      (ex.map ProgressRec.stars).getD 0 ≤ (updateProgress ex stars score).stars ∧
      stars ≤ (updateProgress ex stars score).stars ∧
      (ex.map ProgressRec.bestScore).getD 0 ≤ (updateProgress ex stars score).bestScore ∧
      score ≤ (updateProgress ex stars score).bestScore ∧
      ((updateProgress ex stars score).stars ≠ (ex.map ProgressRec.stars).getD 0 →
        (updateProgress ex stars score).stars = stars ∧
        (ex.map ProgressRec.stars).getD 0 < stars) ∧
      (updateProgress ex stars score).completed = true) ∧
    (updateProgress
        (some (updateProgress none (calculateStars 1500 [1000, 1500, 2000]) 1500))
        (calculateStars 1200 [1000, 1500, 2000]) 1200).stars = 2 := by
  refine ⟨?_, ?_, by decide⟩
  · intro score t0 t1 t2
    simp only [calculateStars, List.getD_cons_zero, List.getD_cons_succ]
  · intro ex stars score
    simp only [updateProgress]
    refine ⟨by omega, by omega, by omega, by omega, by omega, trivial⟩

/-- Witness for C5: the star formula and the ratchet at concrete values. -/
theorem C5_witness :
    calculateStars 1500 [1000, 1500, 2000] =
      (if 2000 ≤ 1500 then 3 else if 1500 ≤ 1500 then 2
       else if 1000 ≤ 1500 then 1 else 0) ∧
    (Option.map ProgressRec.stars (some ⟨true, 2, 1500⟩)).getD 0 ≤
      (updateProgress (some ⟨true, 2, 1500⟩) 1 1200).stars :=
  ⟨C5_star_rating_ratchet.1 1500 1000 1500 2000,
   (C5_star_rating_ratchet.2.1 (some ⟨true, 2, 1500⟩) 1 1200).1⟩


/-- C9: a click pair that is not adjacent (Manhattan distance ≠ 1,
which is exactly what `isAdjacent` tests) or that targets the selected
cell itself never reaches `trySwap`: the handler leaves the whole run
state untouched, does not consume a move, and reports a result
(`deselected` / `reselected`) distinct from a swap attempt. -/
theorem C9_invalid_swap_requests :
    (∀ (p q : Nat × Nat), isAdjacent p q = true ↔
      ((p.1 : Int) - q.1).natAbs + ((p.2 : Int) - q.2).natAbs = 1) ∧
    (∀ (fuel : Nat) (st : GState) (sr sc row col : Nat),
      (sr = row ∧ sc = col) ∨ isAdjacent (sr, sc) (row, col) = false →
      handleGemClick fuel st (some (sr, sc)) false row col =
        some (st, (if sr = row ∧ sc = col then none else some (row, col)),
          (if sr = row ∧ sc = col then ClickResult.deselected
           else ClickResult.reselected)) ∧
      (if sr = row ∧ sc = col then ClickResult.deselected
       else ClickResult.reselected) ≠ ClickResult.swapAttempted) := by
  constructor
  · intro p q
    unfold isAdjacent
    simp only [Bool.or_eq_true, Bool.and_eq_true, decide_eq_true_eq]
    omega
  · intro fuel st sr sc row col h
    rcases Decidable.em (sr = row ∧ sc = col) with hself | hself
    · rw [if_pos hself, if_pos hself]
      constructor
      · unfold handleGemClick
        rw [if_neg (by simp)]
        dsimp only
        rw [if_pos hself]
      · decide
    · have hadj : isAdjacent (sr, sc) (row, col) = false := by
        rcases h with h | h
        · exact absurd h hself
        · exact h
      rw [if_neg hself, if_neg hself]
      constructor
      · unfold handleGemClick
        rw [if_neg (by simp)]
        dsimp only
        rw [if_neg hself, if_neg (by rw [hadj]; simp)]
      · decide

/-- Witness for C9: a far-away click reselects without touching the
state; a same-cell click deselects. -/
theorem C9_witness :
    (isAdjacent (0, 0) (0, 1) = true ↔
      (((0 : Nat) : Int) - ((0 : Nat) : Int)).natAbs +
        (((0 : Nat) : Int) - ((1 : Nat) : Int)).natAbs = 1) ∧
    handleGemClick 1 stAcc (some (0, 0)) false 5 5 =
      some (stAcc, some (5, 5), ClickResult.reselected) ∧
    handleGemClick 1 stAcc (some (0, 0)) false 0 0 =
      some (stAcc, none, ClickResult.deselected) := by
  refine ⟨C9_invalid_swap_requests.1 (0, 0) (0, 1), ?_, ?_⟩
  · have := (C9_invalid_swap_requests.2 1 stAcc 0 0 5 5 (Or.inr (by decide))).1
    simpa using this
  · have := (C9_invalid_swap_requests.2 1 stAcc 0 0 0 0 (Or.inl ⟨rfl, rfl⟩)).1
    simpa using this


/-! ## Concrete counterexample and witnesses for claims C1 and C10 -/

/-- Run state on the deadlocked board `gDead`. -/
def stDead : GState where
  grid := gDead
  score := 0
  movesLeft := 10
  gemsCollected := fun _ => 0
  totalGemsCollected := 0
  rng := fun i => i
  rngIdx := 0

set_option maxRecDepth 20000 in
/-- C1 (as stated, refuted): on the deadlocked board `gDead` the swap
`(0,0)`/`(0,1)` produces no match, yet `trySwap` does not hand back the
original grid — the deadlock check at its end reshuffles the board. -/
theorem C1_counterexample_deadlock_reshuffle :
    findAllMatches (swapCells stDead.grid 0 0 0 1) = [] ∧
    (trySwap 2 stDead 0 0 0 1).isSome = true ∧
    (trySwap 2 stDead 0 0 0 1).map GState.grid ≠ some stDead.grid := by
  refine ⟨by decide, by decide, by decide⟩

set_option maxRecDepth 20000 in
/-- Witness for C1: on `stAcc`, the no-match swap `(3,3)`/`(3,4)` returns
the state unchanged (the board has a valid move), and the accepted swap
`(0,0)`/`(0,1)` consumes exactly one move. -/
theorem C1_witness :
    trySwap 3 stAcc 3 3 3 4 = some stAcc ∧
    (trySwap 3 stAcc 0 0 0 1).map GState.movesLeft = some 9 := by
  constructor
  · exact ((C1_move_conservation 3 stAcc 3 3 3 4).1 (by decide)).2
      (by decide) (by decide) (by decide) (by decide) (by decide) (by decide)
  · rcases he : trySwap 3 stAcc 0 0 0 1 with _ | st'
    · have hs : (trySwap 3 stAcc 0 0 0 1).isSome = true := by decide
      rw [he] at hs
      exact absurd hs (by simp)
    · have hm := (C1_move_conservation 3 stAcc 0 0 0 1).2 (by decide) st' he
      simp [hm]
      rfl

set_option maxRecDepth 20000 in
/-- Witness for C10: with the budget already at 0, the accepted swap on
`stAcc`'s board is still processed and leaves `movesLeft = -1`. -/
theorem C10_witness :
    (trySwap 3 { stAcc with movesLeft := 0 } 0 0 0 1).map GState.movesLeft =
      some (-1) := by
  rcases he : trySwap 3 { stAcc with movesLeft := 0 } 0 0 0 1 with _ | st'
  · have hs : (trySwap 3 { stAcc with movesLeft := 0 } 0 0 0 1).isSome = true := by
      decide
    rw [he] at hs
    exact absurd hs (by simp)
  · have hm := C10_no_move_budget_precondition.2 3 { stAcc with movesLeft := 0 }
      0 0 0 1 st' rfl (by decide) he
    simp [hm]


end GemGarden
